import Mathlib

/-!
# go-common: identifier generators, password check, names, phone numbers, HTTP wrapper, time strings

A shallow embedding of `helpers.go`, `strings.go`, `http.go` and `date.go` of
`budimanlai/go-common`.

Conventions of the embedding.

* A Go `byte` is a natural number below 256.  Bytes delivered by the random
  source are typed `Fin 256`; every computation on them is done on `Nat`
  with an explicit `% 256` where Go computes in `byte`, `% 2 ^ 16` for
  `uint16` and `% 2 ^ 32` for `uint32`.  A Go `int` and a `time.Duration` are
  integers reduced to the signed 64-bit range (`wrapInt64`).
* `crypto/rand` is an explicit state: the list of the outcomes of the
  successive one-byte deliveries, `none` standing for a failed delivery
  (a source that has nothing left fails as well).  `rand.Read(b)` either
  fills the whole of `b` or returns an error.
* A Go string that holds ASCII only is a Lean `String` with one character
  per byte; a function that ranges over the runes of its argument takes the
  sequence of the runes.
* `time.Now()` is an explicit argument, and a `time.Time` is given by the
  civil fields in its location.
* Libraries outside the repository are parameters (the Blowfish rounds of
  `bcrypt`, the `fasthttp` transport, the Unicode tables above Latin-1 or
  ASCII) or, for `time.Format`, `time.Parse`, `fmt.Sprintf`, the functions of
  `strings`, the text format of a `bcrypt` hash and `RequestHeader.Set` of
  `fasthttp`, models of the library code for the layouts, verbs and header
  names the repository uses.
* A Go map is a list of entries with distinct keys, the nil map is `none`.
-/

namespace GoCommon

/-! ## The random source -/

/-- A byte delivered by the random source. -/
abbrev Byte := Fin 256

/-- State of `crypto/rand`: outcomes of the successive one-byte deliveries. -/
abbrev RandSource := List (Option Byte)

/-- Model of `rand.Read(b)` with `len(b) = n`: the `n` bytes and the rest of
the source when every delivery succeeds, `none` (the error) otherwise. -/
def Read : Nat → RandSource → Option (List Nat × RandSource)
  | 0, src => some ([], src)
  | _ + 1, [] => none
  | _ + 1, none :: _ => none
  | n + 1, some b :: src =>
    match Read n src with
    | none => none
    | some (bs, rest) => some (b.val :: bs, rest)

/-- The loop shared by `GenerateTransactionID`, `GenerateUnique6Digits` and
`GenerateRandomString`:
`for i := 0; i < n; i++ { b := make([]byte, 1); if _, err := rand.Read(b); err != nil { return "" }; buf[i] = enc(b[0]) }`.
The first argument counts the iterations that remain (`n - i`); `none` is the
early `return ""`. -/
def fillLoop (enc : Nat → Nat) : Nat → Nat → List Nat → RandSource → Option (List Nat)
  | 0, _, buf, _ => some buf
  | k + 1, i, buf, src =>
    match Read 1 src with
    | none => none
    | some (b, rest) => fillLoop enc k (i + 1) (buf.set i (enc (b.getD 0 0))) rest

/-- Model of `make([]byte, n)`: `n` zero bytes. -/
def makeBytes (n : Nat) : List Nat := List.replicate n 0

/-- Model of `string(buf)` for a buffer of ASCII bytes. -/
def bytesToChars (buf : List Nat) : List Char := buf.map Char.ofNat

/-! ## Integer formatting (`time.appendInt`, `fmt` verb `%0Nx`) -/

/-- The digit table of `fmt` (`ldigits`), also the decimal digits. -/
def ldigits : List Char := "0123456789abcdef".data

/-- Digit `d` of the table. -/
def digitChar (d : Nat) : Char := ldigits.getD d '0'

/-- Right-to-left digit loop of `time.appendInt` and `fmt.fmtInteger`:
`for u >= base { i--; buf[i] = digits[u % base]; u /= base }; i--; buf[i] = digits[u]`.
The first argument bounds the number of iterations by the size of the
buffer. -/
def digitsLoop (base : Nat) : Nat → Nat → List Char → List Char
  | 0, u, acc => digitChar u :: acc
  | fuel + 1, u, acc =>
    if base ≤ u then digitsLoop base fuel (u / base) (digitChar (u % base) :: acc)
    else digitChar u :: acc

/-- An unsigned integer in the given base, zero-padded on the left to `width`
digits (`appendInt(b, u, width)`, `%0<width>x`). -/
def formatUint (base width u : Nat) : List Char :=
  let ds := digitsLoop base 64 u []
  List.replicate (width - ds.length) '0' ++ ds

/-! ## The clock -/

/-- Civil fields of `time.Now()` in the local zone. -/
structure LocalTime where
  year : Int
  month : Nat
  day : Nat
  hour : Nat
  minute : Nat
  second : Nat
  deriving Repr, DecidableEq

/-- Ranges of the civil fields of a `time.Time`. -/
def LocalTime.Valid (t : LocalTime) : Prop :=
  1 ≤ t.month ∧ t.month ≤ 12 ∧ 1 ≤ t.day ∧ t.day ≤ 31 ∧
  t.hour < 24 ∧ t.minute < 60 ∧ t.second < 60

instance (t : LocalTime) : Decidable t.Valid := by
  unfold LocalTime.Valid; infer_instance

/-- Model of `now.Format("060102150405")`: the layout is the sequence of the
chunks `06` (year modulo 100 of the absolute year), `01`, `02`, `15`, `04`,
`05`, each appended by `appendInt(b, v, 2)`. -/
def Format060102150405 (now : LocalTime) : List Char :=
  formatUint 10 2 (now.year.natAbs % 100) ++ formatUint 10 2 now.month ++
  formatUint 10 2 now.day ++ formatUint 10 2 now.hour ++
  formatUint 10 2 now.minute ++ formatUint 10 2 now.second

/-! ## `helpers.go` -/

/-- Go function `GenerateTransactionID` of `helpers.go`. -/
def GenerateTransactionID (now : LocalTime) (src : RandSource) : String :=
  let timestamp := Format060102150405 now
  match fillLoop (fun b => (48 + b % 10) % 256) 8 0 (makeBytes 8) src with
  | none => ""
  | some randomDigits => String.mk (timestamp ++ bytesToChars randomDigits)

/-- Go function `GenerateUnique6Digits` of `helpers.go`. -/
def GenerateUnique6Digits (src : RandSource) : String :=
  match fillLoop (fun b => (48 + b % 10) % 256) 6 0 (makeBytes 6) src with
  | none => ""
  | some digits => String.mk (bytesToChars digits)

/-- Go function `GenerateUUIDv4` of `helpers.go`. -/
def GenerateUUIDv4 (src : RandSource) : String :=
  match Read 16 src with
  | none => ""
  | some (uuid, _) =>
    let uuid := uuid.set 6 (((uuid.getD 6 0 &&& 0x0f) ||| 0x40) % 256)
    let uuid := uuid.set 8 (((uuid.getD 8 0 &&& 0x3f) ||| 0x80) % 256)
    let u := fun i => uuid.getD i 0
    String.mk (
      formatUint 16 8
        ((u 0 <<< 24) % 2 ^ 32 ||| (u 1 <<< 16) % 2 ^ 32 ||| (u 2 <<< 8) % 2 ^ 32 ||| u 3) ++
      '-' :: formatUint 16 4 ((u 4 <<< 8) % 2 ^ 16 ||| u 5) ++
      '-' :: formatUint 16 4 ((u 6 <<< 8) % 2 ^ 16 ||| u 7) ++
      '-' :: formatUint 16 4 ((u 8 <<< 8) % 2 ^ 16 ||| u 9) ++
      '-' :: formatUint 16 4 ((u 10 <<< 8) % 2 ^ 16 ||| u 11) ++
      formatUint 16 8
        ((u 12 <<< 24) % 2 ^ 32 ||| (u 13 <<< 16) % 2 ^ 32 ||| (u 14 <<< 8) % 2 ^ 32 ||| u 15))

/-- The hashing primitive. `HashPassword` and `CheckPasswordHash` use
`golang.org/x/crypto/bcrypt`, which is not part of the repository: the
primitive is a parameter.  `Err` is the
type of its error values, `none` is Go's `nil` error. -/
structure Bcrypt (Err : Type) where
  /-- The error value `bcrypt.ErrMismatchedHashAndPassword`. -/
  ErrMismatchedHashAndPassword : Err
  /-- The call `bcrypt.GenerateFromPassword(password, cost)`. -/
  GenerateFromPassword : String → Nat → Except Err String
  /-- The call `bcrypt.CompareHashAndPassword(hashedPassword, password)`. -/
  CompareHashAndPassword : String → String → Option Err

/-- The constant `bcrypt.DefaultCost`. -/
def DefaultCost : Nat := 10

/-- Go function `HashPassword` of `helpers.go`. -/
def HashPassword {Err : Type} (B : Bcrypt Err) (password : String) : String :=
  match B.GenerateFromPassword password DefaultCost with
  | .error _ => ""
  | .ok hash => hash

/-- Go function `CheckPasswordHash` of `helpers.go`: the pair `(bool, error)`. -/
def CheckPasswordHash {Err : Type} [DecidableEq Err] (B : Bcrypt Err)
    (password hash : String) : Bool × Option Err :=
  match B.CompareHashAndPassword hash password with
  | some err =>
    if err = B.ErrMismatchedHashAndPassword then (false, none)
    else (false, some err)
  | none => (true, none)

/-- Model of `unicode.IsDigit`: for `r <= MaxLatin1` the test
`'0' <= r && r <= '9'`, above Latin-1 the lookup in the table of the decimal
digits, which is the parameter `nd`. -/
def IsDigit (nd : Char → Bool) (r : Char) : Bool :=
  if r.val ≤ 0xFF then decide ('0' ≤ r) && decide (r ≤ '9') else nd r

/-- Go function `NormalizePhoneNumber` of `helpers.go`.  The input is the sequence of the
runes that `range phone` yields; `digits.WriteRune(r)` appends to the builder;
`num[1:]` is taken after `strings.HasPrefix(num, "0")`, so the byte it drops
is the character `0`. -/
def NormalizePhoneNumber (nd : Char → Bool) (phone : String) : String :=
  let digits := phone.data.foldl (fun sb r => if IsDigit nd r then sb ++ [r] else sb) []
  let num := digits
  if "62".data.isPrefixOf num then String.mk num
  else if "0".data.isPrefixOf num then String.mk ("62".data ++ num.drop 1)
  else if "8".data.isPrefixOf num then String.mk ("62".data ++ num)
  else String.mk num

/-- Error values of `golang.org/x/crypto/bcrypt`; `other` stands for the
errors of the packages below it (`strconv`, `crypto/rand`, `blowfish`). -/
inductive BcryptError where
  | ErrMismatchedHashAndPassword
  | ErrHashTooShort
  | ErrPasswordTooLong
  | InvalidHashPrefixError (first : Char)
  | HashVersionTooNewError (major : Char)
  | InvalidCostError (cost : Int)
  | other
  deriving DecidableEq, Repr

/-- Stand-in for the hash string inside the length guards: not a cryptographic
hash, it only has the length of one. -/
def standInHash (password : String) : String :=
  String.mk ("$2a$10$".data ++ List.replicate 53 '.' ++ password.data)

/-- An instance of the primitive with the two length guards of
`golang.org/x/crypto/bcrypt`: `GenerateFromPassword` returns
`ErrPasswordTooLong` for a password of more than 72 bytes, and
`CompareHashAndPassword` returns `ErrHashTooShort` for a hash of fewer than 59
bytes (`minHashSize`).  Inside the guards it uses `standInHash`. -/
def guardedBcrypt : Bcrypt BcryptError where
  ErrMismatchedHashAndPassword := BcryptError.ErrMismatchedHashAndPassword
  GenerateFromPassword := fun password _ =>
    if password.utf8ByteSize > 72 then .error BcryptError.ErrPasswordTooLong
    else .ok (standInHash password)
  CompareHashAndPassword := fun hashedPassword password =>
    if hashedPassword.utf8ByteSize < 59 then some BcryptError.ErrHashTooShort
    else if hashedPassword = standInHash password then none
    else some BcryptError.ErrMismatchedHashAndPassword

/-! ## `golang.org/x/crypto/bcrypt`: the text format of a hash -/

/-- The part of bcrypt that works on the key: the outcome of reading the salt
(`io.ReadFull(rand.Reader, unencodedSalt)` and `base64Encode`, 22 characters)
and the function `bcrypt(password, cost, salt)`, which gives the encoded
digest.  The Blowfish rounds are not modelled: the digest is a parameter.  The
key `password` followed by a zero byte enters it through `getNextWord`, which
reads 18 words of 4 bytes and starts again at the first byte when it reaches
the end of the key: through the 72 bytes of `keyStream`. -/
structure Eksblowfish where
  /-- The encoded salt, or the error of the random source. -/
  salt : Except BcryptError (List Char)
  /-- The encoded digest for a key stream, a cost and an encoded salt. -/
  digest : List Nat → Nat → List Char → Except BcryptError (List Char)

/-- The bytes of a password, `[]byte(password)`. -/
def keyBytes (password : String) : List Nat :=
  (password.data.flatMap String.utf8EncodeChar).map UInt8.toNat

/-- The 72 bytes that the key schedule reads of the key `password ‖ 0`: the
key repeated cyclically. -/
def keyStream (password : String) : List Nat :=
  let ckey := keyBytes password ++ [0]
  (List.range 72).map fun i => ckey.getD (i % ckey.length) 0

/-- The constants `MinCost` and `MaxCost`. -/
def MinCost : Nat := 4

/-- The constant `MaxCost`. -/
def MaxCost : Nat := 31

/-- The struct `hashed` of bcrypt. -/
structure Hashed where
  hash : List Char
  salt : List Char
  cost : Nat
  major : Char
  minor : Char
  deriving DecidableEq, Repr

/-- Model of `copy(arr[n:n+k], src)` into `k` zero bytes: the first `k`
characters of `src`, filled up with zero bytes. -/
def fitField (k : Nat) (src : List Char) : List Char :=
  src.take k ++ List.replicate (k - src.length) (Char.ofNat 0)

/-- Model of `(*hashed).Hash()`: `$`, the major version, the minor version
when it is not zero, `$`, the cost as `%02d`, `$`, the 22 characters of the
salt and the 31 characters of the digest, written one after the other into a
zeroed array.  (Where a `hashed` is made the salt has 22 characters and the
cost is at most 31, so no field runs into the next.) -/
def Hashed.Hash (p : Hashed) : List Char :=
  ['$', p.major] ++ (if p.minor ≠ Char.ofNat 0 then [p.minor] else []) ++ ['$'] ++
    fitField 2 (formatUint 10 2 p.cost) ++ ['$'] ++ fitField 22 p.salt ++ fitField 31 p.hash

/-- Model of `bcrypt.GenerateFromPassword(password, cost)`, with
`newFromPassword`. -/
def GenerateFromPassword (E : Eksblowfish) (password : String) (cost : Nat) :
    Except BcryptError String :=
  if password.utf8ByteSize > 72 then .error BcryptError.ErrPasswordTooLong
  else
    let cost := if cost < MinCost then DefaultCost else cost
    if cost < MinCost ∨ cost > MaxCost then .error (BcryptError.InvalidCostError cost)
    else
      match E.salt with
      | .error err => .error err
      | .ok salt =>
        match E.digest (keyStream password) cost salt with
        | .error err => .error err
        | .ok hash =>
          .ok (String.mk (Hashed.Hash
            { hash := hash, salt := salt, cost := cost, major := '2', minor := 'a' }))

/-- Model of `strconv.Atoi` on the two characters of the cost: two digits, or
a sign and a digit; `none` is its error. -/
def atoiCost (a b : Char) : Option Int :=
  if a.isDigit ∧ b.isDigit then some ((a.toNat - 48) * 10 + (b.toNat - 48) : Nat)
  else if a = '+' ∧ b.isDigit then some ((b.toNat - 48 : Nat) : Int)
  else if a = '-' ∧ b.isDigit then some (-((b.toNat - 48 : Nat) : Int))
  else none

/-- Model of `newFromHash(hashedSecret)`, with `decodeVersion` and
`decodeCost`: the length test against `minHashSize`, the prefix `$`, the major
version (at most `2`), the minor version when the third character is not `$`,
the cost of two characters between `MinCost` and `MaxCost`, then 22
characters of salt, and the rest is the digest. -/
def newFromHash (hashedSecret : List Char) : Except BcryptError Hashed :=
  if hashedSecret.length < 59 then .error BcryptError.ErrHashTooShort
  else if hashedSecret.getD 0 ' ' ≠ '$' then
    .error (BcryptError.InvalidHashPrefixError (hashedSecret.getD 0 ' '))
  else if hashedSecret.getD 1 ' ' > '2' then
    .error (BcryptError.HashVersionTooNewError (hashedSecret.getD 1 ' '))
  else
    let major := hashedSecret.getD 1 ' '
    let minor := if hashedSecret.getD 2 ' ' ≠ '$' then hashedSecret.getD 2 ' ' else Char.ofNat 0
    let n := if hashedSecret.getD 2 ' ' ≠ '$' then 4 else 3
    let hashedSecret := hashedSecret.drop n
    match atoiCost (hashedSecret.getD 0 ' ') (hashedSecret.getD 1 ' ') with
    | none => .error BcryptError.other
    | some cost =>
      if cost < (MinCost : Int) ∨ cost > (MaxCost : Int) then
        .error (BcryptError.InvalidCostError cost)
      else
        let hashedSecret := hashedSecret.drop 3
        .ok { hash := hashedSecret.drop 22, salt := hashedSecret.take 22, cost := cost.toNat,
              major := major, minor := minor }

/-- Model of `bcrypt.CompareHashAndPassword(hashedPassword, password)`. -/
def CompareHashAndPassword (E : Eksblowfish) (hashedPassword password : String) :
    Option BcryptError :=
  match newFromHash hashedPassword.data with
  | .error err => some err
  | .ok p =>
    match E.digest (keyStream password) p.cost p.salt with
    | .error err => some err
    | .ok otherHash =>
      let otherP : Hashed :=
        { hash := otherHash, salt := p.salt, cost := p.cost, major := p.major, minor := p.minor }
      if p.Hash = otherP.Hash then none
      else some BcryptError.ErrMismatchedHashAndPassword

/-- The primitive of `HashPassword` and `CheckPasswordHash` built on a key
part `E`. -/
def bcryptOn (E : Eksblowfish) : Bcrypt BcryptError where
  ErrMismatchedHashAndPassword := BcryptError.ErrMismatchedHashAndPassword
  GenerateFromPassword := GenerateFromPassword E
  CompareHashAndPassword := CompareHashAndPassword E

/-- The alphabet of bcrypt's base64. -/
def bcryptAlphabet : List Char :=
  "./ABCDEFGHIJKLMNOPQRSTUVWXYZabcdefghijklmnopqrstuvwxyz0123456789".data

/-- A stand-in for the Blowfish rounds in concrete runs: it sums the key
stream, the cost and the salt into 31 characters of the alphabet.  It is not
Blowfish; like Blowfish it sees the password through the key stream only. -/
def sampleDigest (ks : List Nat) (cost : Nat) (salt : List Char) : List Char :=
  (List.range 31).map fun i =>
    bcryptAlphabet.getD
      ((ks.getD i 0 + 3 * ks.getD (i + 31) 0 + 7 * ks.getD ((i + 62) % 72) 0 + cost +
        (salt.getD (i % 22) ' ').toNat) % 64) '.'

/-- A key part for concrete runs: a fixed salt and the digest `sampleDigest`. -/
def sampleEksblowfish : Eksblowfish where
  salt := .ok "N9qo8uLOickgx2ZMRZoMye".data
  digest := fun ks cost salt => .ok (sampleDigest ks cost salt)

/-! ## `strings.go` -/

/-- The constant `charset` of `GenerateRandomString`. -/
def charset : List Char :=
  "0123456789ABCDEFGHIJKLMNOPQRSTUVWXYZabcdefghijklmnopqrstuvwxyz_-".data

/-- Go function `GenerateRandomString` of `strings.go`; `length` is a Go `int`. -/
def GenerateRandomString (length : Int) (src : RandSource) : String :=
  if length ≤ 0 then ""
  else
    let charsetLen := charset.length % 256
    match fillLoop (fun b => (charset.getD (b % charsetLen) '\x00').toNat)
        length.toNat 0 (makeBytes length.toNat) src with
    | none => ""
    | some result => String.mk (bytesToChars result)

/-! ## Specification-side definitions -/

/-- The `w` low digits of `u` in the given base, most significant first:
what `formatUint` writes for `u < base ^ w`. -/
def fixedDigits (base : Nat) : Nat → Nat → List Char
  | 0, _ => []
  | w + 1, u => fixedDigits base w (u / base) ++ [digitChar (u % base)]

/-- Spec: the decimal digit `d` as a character. -/
def decDigit (d : Nat) : Char := Char.ofNat (48 + d)

/-- Spec: a number below 100 written with two decimal digits, zero-padded. -/
def twoDigits (n : Nat) : List Char := [decDigit (n / 10), decDigit (n % 10)]

/-- Spec: the timestamp `yyMMddHHmmss` of a clock reading. -/
def timestamp12 (now : LocalTime) : List Char :=
  twoDigits (now.year.natAbs % 100) ++ twoDigits now.month ++ twoDigits now.day ++
  twoDigits now.hour ++ twoDigits now.minute ++ twoDigits now.second

/-- Spec: the lowercase hexadecimal digit `d`. -/
def lowerHex (d : Nat) : Char := if d < 10 then Char.ofNat (48 + d) else Char.ofNat (87 + d)

/-- Spec: a byte as two lowercase hexadecimal digits, zero-padded. -/
def hexByte (b : Nat) : List Char := [lowerHex (b / 16), lowerHex (b % 16)]

/-- Spec: byte 6 replaced by `(byte6 & 0x0F) | 0x40`, byte 8 by
`(byte8 & 0x3F) | 0x80`, the other bytes unchanged. -/
def setVersionVariant (bs : List Nat) : List Nat :=
  bs.enum.map fun p =>
    if p.1 = 6 then (p.2 &&& 0x0F) ||| 0x40
    else if p.1 = 8 then (p.2 &&& 0x3F) ||| 0x80
    else p.2

/-- Spec: the canonical rendering of a byte sequence: every byte in index
order as two hexadecimal digits, a hyphen after bytes 3, 5, 7 and 9. -/
def canonicalUUID (bs : List Nat) : List Char :=
  (bs.enum.map fun p =>
    hexByte p.2 ++ if p.1 = 3 ∨ p.1 = 5 ∨ p.1 = 7 ∨ p.1 = 9 then ['-'] else []).flatten

/-- Spec: a lowercase hexadecimal digit, `0`-`9` or `a`-`f`. -/
def isLowerHexDigit (c : Char) : Bool :=
  ('0' ≤ c && c ≤ '9') || ('a' ≤ c && c ≤ 'f')

/-- Spec: the first `n` deliveries of the random source all succeed. -/
def Delivers (n : Nat) (src : RandSource) : Prop :=
  ∃ (bs : List Byte) (rest : RandSource), bs.length = n ∧ src = bs.map some ++ rest

/-- Spec: the format of a transaction identifier at a clock reading. -/
def IsTransactionID (now : LocalTime) (s : String) : Prop :=
  s.length = 20 ∧ s.data.take 12 = timestamp12 now ∧ ∀ c ∈ s.data, c.isDigit = true

/-- Spec: the format of a six-digit code. -/
def IsSixDigits (s : String) : Prop :=
  s.length = 6 ∧ ∀ c ∈ s.data, c.isDigit = true

/-- Spec: the layout of a version-4 UUID string. -/
def IsUUIDv4 (s : String) : Prop :=
  s.length = 36 ∧ s.data[8]? = some '-' ∧ s.data[13]? = some '-' ∧
    s.data[18]? = some '-' ∧ s.data[23]? = some '-' ∧ s.data[14]? = some '4' ∧
    (∃ c ∈ ['8', '9', 'a', 'b'], s.data[19]? = some c) ∧
    ∀ i, i < 36 → i ≠ 8 → i ≠ 13 → i ≠ 18 → i ≠ 23 →
      ∃ c, s.data[i]? = some c ∧ isLowerHexDigit c = true

/-- Spec: a random string of the requested length over the alphabet. -/
def IsRandomString (length : Int) (s : String) : Prop :=
  (s.length : Int) = length ∧ ∀ c ∈ s.data, c ∈ charset

/-- Spec: a generator that reads `n` bytes returns a value of its format when
the first `n` deliveries of the source succeed and the empty string when one
of them fails. -/
def FullOrEmpty (n : Nat) (src : RandSource) (format : String → Prop) (s : String) : Prop :=
  (Delivers n src ∧ format s) ∨ (¬ Delivers n src ∧ s = "")

/-- Spec: the 64-character alphabet: `0`-`9`, `A`-`Z`, `a`-`z`, `_` and `-`. -/
def inAlphabet (c : Char) : Bool :=
  c.isDigit || c.isUpper || c.isLower || c == '_' || c == '-'

/-- Spec: the prefix rule of the phone normalisation on the digit string `d`:
`d` itself if it starts with `62`, otherwise `62` followed by `d` without its
first character if it starts with `0`, otherwise `62` followed by `d` if it
starts with `8`, otherwise `d`. -/
def normalizeDigits (d : List Char) : List Char :=
  if d.take 2 = ['6', '2'] then d
  else if d.head? = some '0' then ['6', '2'] ++ d.tail
  else if d.head? = some '8' then ['6', '2'] ++ d
  else d

/-! ## `strings.go`: `CapitalizeName` -/

/-- Model of `unicode.IsSpace`: up to `MaxLatin1` the switch on `'\t'`, `'\n'`,
`'\v'`, `'\f'`, `'\r'`, `' '`, U+0085 and U+00A0; above Latin-1 the lookup in
the table `White_Space`, which is the parameter `ws`. -/
def IsSpace (ws : Char → Bool) (r : Char) : Bool :=
  if r.val ≤ 0xFF then
    r.toNat == 9 || r.toNat == 10 || r.toNat == 11 || r.toNat == 12 || r.toNat == 13 ||
      r.toNat == 32 || r.toNat == 0x85 || r.toNat == 0xA0
  else ws r

/-- Model of `unicode.ToUpper`: up to `MaxASCII` the letters `a`-`z` are
shifted by `'a' - 'A'`, every other ASCII rune is returned as it is; above
ASCII the case table decides, which is the parameter `up`. -/
def ToUpper (up : Char → Char) (r : Char) : Char :=
  if r.val ≤ 0x7F then
    if 'a' ≤ r ∧ r ≤ 'z' then Char.ofNat (r.toNat - 32) else r
  else up r

/-- Model of `unicode.ToLower`: up to `MaxASCII` the letters `A`-`Z` are
shifted by `'a' - 'A'`; above ASCII the parameter `lo` decides. -/
def ToLower (lo : Char → Char) (r : Char) : Char :=
  if r.val ≤ 0x7F then
    if 'A' ≤ r ∧ r ≤ 'Z' then Char.ofNat (r.toNat + 32) else r
  else lo r

/-- One step of the scan of `strings.FieldsFunc`: the state is the list of
the spans found so far and the span that is open (`start >= 0`), if any. -/
def fieldsStep (f : Char → Bool) (st : List (List Char) × Option (List Char)) (r : Char) :
    List (List Char) × Option (List Char) :=
  if f r then
    match st.2 with
    | some w => (st.1 ++ [w], none)
    | none => st
  else
    match st.2 with
    | some w => (st.1, some (w ++ [r]))
    | none => (st.1, some [r])

/-- Model of `strings.FieldsFunc(s, f)`: one scan over the runes; a span opens
at a rune that `f` rejects, closes at the next rune that `f` accepts, and
the span that is open at the end of the input is closed there. -/
def FieldsFunc (f : Char → Bool) (s : List Char) : List (List Char) :=
  let st := s.foldl (fieldsStep f) ([], none)
  match st.2 with
  | some w => st.1 ++ [w]
  | none => st.1

/-- Model of `strings.Fields(s)`: the fields of `FieldsFunc(s, unicode.IsSpace)`
(the ASCII path of `Fields` computes the same fields with the table
`asciiSpace`, which is `unicode.IsSpace` on ASCII). -/
def Fields (ws : Char → Bool) (s : List Char) : List (List Char) :=
  FieldsFunc (IsSpace ws) s

/-- Model of `strings.Join(elems, sep)`. -/
def Join (elems : List (List Char)) (sep : List Char) : List Char :=
  match elems with
  | [] => []
  | e :: rest => rest.foldl (fun b s => b ++ sep ++ s) e

/-- Body of the loop of `CapitalizeName` for the word at index `i`:
`runes := []rune(word); runes[0] = unicode.ToUpper(runes[0]);
for j := 1; j < len(runes); j++ { runes[j] = unicode.ToLower(runes[j]) };
words[i] = string(runes)`, skipped when `len(word) == 0`. -/
def capitalizeAt (up lo : Char → Char) (words : List (List Char)) (i : Nat) :
    List (List Char) :=
  let word := words.getD i []
  if word.length = 0 then words
  else
    let runes := word
    let runes := runes.set 0 (ToUpper up (runes.getD 0 ' '))
    let runes := (List.range' 1 (runes.length - 1)).foldl
      (fun runes j => runes.set j (ToLower lo (runes.getD j ' '))) runes
    words.set i runes

/-- Go function `CapitalizeName` of `strings.go`; the input is the sequence of
the runes of `name`. -/
def CapitalizeName (ws : Char → Bool) (up lo : Char → Char) (name : String) : String :=
  let words := Fields ws name.data
  let words := (List.range words.length).foldl (capitalizeAt up lo) words
  String.mk (Join words " ".data)

/-- Spec: the whitespace-separated words of a text: the pieces between
whitespace characters that are not empty. -/
def wordsOf (ws : Char → Bool) (s : List Char) : List (List Char) :=
  (s.splitOnP (IsSpace ws)).filter fun w => !w.isEmpty

/-- Spec: a word with its first character in upper case and every later
character in lower case. -/
def capitalizeWord (up lo : Char → Char) : List Char → List Char
  | [] => []
  | c :: cs => ToUpper up c :: cs.map (ToLower lo)

/-! ## `http.go` -/

/-- A Go `map[string]string` that is not nil: a list of entries with distinct
keys.  The nil map is `none` of `Option Headers`. -/
abbrev Headers := AList (fun _ : String => String)

/-- What `HTTPRequest` sets on the `fasthttp.Request`: the URI, the method,
the calls `req.Header.Set(k, v)` in the order they were made, and the argument
of `req.SetBody`, `none` when it was not called. -/
structure Request where
  uri : String
  method : String
  header : List (String × String)
  body : Option (List Nat)
  deriving DecidableEq, Repr

/-- What `HTTPRequest` reads from the `fasthttp.Response`. -/
structure Response where
  body : List Nat
  statusCode : Int
  deriving DecidableEq, Repr

/-- The transport. `fasthttp.DoTimeout(req, resp, timeout)` is not part of
the repository: it is a parameter, which answers a request and a timeout (a
`time.Duration`, a signed 64-bit count of nanoseconds) with an error or a
response. -/
structure Transport (Err : Type) where
  /-- The call `fasthttp.DoTimeout(req, resp, timeout)`. -/
  DoTimeout : Request → Int → Except Err Response

/-- A value of Go's `int64`, and of `int` on a 64-bit platform: the integer
reduced to the range from `-2^63` to `2^63 - 1`. -/
def wrapInt64 (x : Int) : Int := (x + 2 ^ 63) % 2 ^ 64 - 2 ^ 63

/-- The constant `time.Millisecond`, in nanoseconds. -/
def Millisecond : Int := 1000000

/-- Model of `copy(dst, src)`. -/
def copyBytes (dst src : List Nat) : List Nat :=
  src.take dst.length ++ dst.drop src.length

/-- Model of `range headers`: the pairs `k, v` of the map, none for the nil
map.  Go leaves the order of the visit open; the model visits the entries in
the order of the list. -/
def rangeMap (headers : Option Headers) : List (String × String) :=
  match headers with
  | none => []
  | some m => m.entries.map fun e => (e.1, e.2)

/-- Go function `HTTPRequest` of `http.go`; `timeout` is the variadic
argument and `to0` the variable `to`. -/
def HTTPRequest {Err : Type} (T : Transport Err) (method url : String)
    (headers : Option Headers) (body : Option (List Nat)) (timeout : List Int) :
    Option (List Nat) × Int × Option Err :=
  let req : Request := { uri := "", method := "", header := [], body := none }
  let req := { req with uri := url }
  let req := { req with method := method }
  let req := (rangeMap headers).foldl
    (fun (r : Request) kv => { r with header := r.header ++ [(kv.1, kv.2)] }) req
  let req := match body with
    | some b => { req with body := some b }
    | none => req
  let to0 : Int := wrapInt64 (10 * 1000)
  let to0 := if timeout.length > 0 then timeout.getD 0 0 else to0
  match T.DoTimeout req (wrapInt64 (wrapInt64 to0 * Millisecond)) with
  | .error err => (none, 0, some err)
  | .ok resp =>
    let responseBody := copyBytes (makeBytes resp.body.length) resp.body
    (some responseBody, resp.statusCode, none)

/-- Go function `HTTPGetJSON` of `http.go`. -/
def HTTPGetJSON {Err : Type} (T : Transport Err) (url : String) (headers : Option Headers) :
    Option (List Nat) × Int × Option Err :=
  let headers : Headers := match headers with
    | none => ∅
    | some m => m
  let headers := headers.insert "Accept" "application/json"
  match HTTPRequest T "GET" url (some headers) none [] with
  | (resp, status, err) =>
    if err.isSome then (none, status, err)
    else (resp, status, err)

/-- A transport that answers every request with the same response. -/
def fixedTransport (resp : Response) : Transport Unit where
  DoTimeout := fun _ _ => .ok resp

/-- A transport that fails with the request and the timeout it was given. -/
def recordingTransport : Transport (Request × Int) where
  DoTimeout := fun req timeout => .error (req, timeout)

/-- Spec: the request that is built from a method, a URL, a header map and a
body. -/
def requestOf (method url : String) (headers : Option Headers) (body : Option (List Nat)) :
    Request where
  uri := url
  method := method
  header := rangeMap headers
  body := body

/-- Spec: what `HTTPRequest` returns for an answer of the transport. -/
def respond {Err : Type} (answer : Except Err Response) : Option (List Nat) × Int × Option Err :=
  match answer with
  | .error err => (none, 0, some err)
  | .ok resp => (some resp.body, resp.statusCode, none)

/-- Spec: a necessary condition for a text to be JSON (RFC 8259): after
whitespace it starts with `{`, `[`, `"`, `-`, a digit, or the first letter of
`true`, `false` or `null`. -/
def startsJSONValue (body : List Nat) : Bool :=
  match body.dropWhile (fun b => b == 32 || b == 9 || b == 10 || b == 13) with
  | [] => false
  | b :: _ => b == 123 || b == 91 || b == 34 || b == 45 || (48 ≤ b && b ≤ 57) ||
      b == 116 || b == 102 || b == 110

/-! ## `github.com/valyala/fasthttp`: the header of a request -/

/-- Entry of fasthttp's `toUpperTable`: the letters `a` to `z` go to `A` to
`Z`, every other byte to itself.  A byte above 127 is left as it is, so the
table is applied to the characters of a Go string. -/
def toUpperTable (c : Char) : Char :=
  if 'a' ≤ c ∧ c ≤ 'z' then Char.ofNat (c.toNat - 32) else c

/-- Entry of fasthttp's `toLowerTable`: the letters `A` to `Z` go to `a` to
`z`, every other byte to itself. -/
def toLowerTable (c : Char) : Char :=
  if 'A' ≤ c ∧ c ≤ 'Z' then Char.ofNat (c.toNat + 32) else c

/-- The loop of `normalizeHeaderKey` from index 1 on: the byte after a `-` is
put in upper case (when there is one) and skipped, every other byte is put in
lower case. -/
def normalizeLoop : List Char → List Char
  | [] => []
  | c :: rest =>
    if c = '-' then
      match rest with
      | [] => [c]
      | d :: rest2 => c :: toUpperTable d :: normalizeLoop rest2
    else toLowerTable c :: normalizeLoop rest

/-- Model of fasthttp's `normalizeHeaderKey(b, false)`: the first byte in
upper case, then the loop. -/
def normalizeHeaderKey (b : List Char) : List Char :=
  match b with
  | [] => []
  | c :: rest => toUpperTable c :: normalizeLoop rest

/-- The header names that `RequestHeader.setSpecialHeader` compares with,
without regard to case; it keeps them in fields of their own. -/
def specialHeaders : List String :=
  ["content-type", "content-length", "connection", "cookie", "transfer-encoding",
    "trailer", "host", "user-agent"]

/-- The key-value pairs `h.h` of a `fasthttp.RequestHeader`, in their order. -/
abbrev RequestHeader := List (String × String)

/-- Model of fasthttp's `setArg(h, key, value, argsHasValue)`: the value of
the first pair with this key is replaced, and a pair is appended when there is
none. -/
def setArg (h : RequestHeader) (key value : String) : RequestHeader :=
  match h with
  | [] => [(key, value)]
  | kv :: rest => if key = kv.1 then (kv.1, value) :: rest else kv :: setArg rest key value

/-- Model of `h.Set(key, value)` on a `fasthttp.RequestHeader` with the
default settings: the key is normalised and the pair is set with `setArg`.
The model covers the names that are made of letters, digits and `-` and are
not among the special ones, and values without a line break; it is `none`
for another name. -/
def RequestHeader.Set (h : RequestHeader) (key value : String) : Option RequestHeader :=
  let k := normalizeHeaderKey key.data
  if specialHeaders.contains (String.mk (k.map toLowerTable)) ||
      !(key.data.all fun c => c.isAlphanum || c == '-') then none
  else some (setArg h (String.mk k) value)

/-- The pairs of the header of a request after the calls `req.Header.Set(k,
v)` that `HTTPRequest` made, in their order, on the empty header of
`fasthttp.AcquireRequest()`. -/
def setAll (h : RequestHeader) : List (String × String) → Option RequestHeader
  | [] => some h
  | kv :: calls =>
    match RequestHeader.Set h kv.1 kv.2 with
    | none => none
    | some h2 => setAll h2 calls

/-! ## `date.go` -/

/-- Model of `time.appendInt(b, x, width)`: a `-` for a negative `x`, then
the absolute value, zero-padded to `width` digits. -/
def appendInt (x : Int) (width : Nat) : List Char :=
  if x < 0 then '-' :: formatUint 10 width x.natAbs else formatUint 10 width x.natAbs

/-- Model of `t.Format("2006-01-02 15:04:05")`: the layout is the sequence of
the chunks `2006` (the year, `appendInt(b, year, 4)`), `-`, `01`, `-`, `02`,
a blank, `15`, `:`, `04`, `:`, `05`. -/
def Format20060102150405 (t : LocalTime) : List Char :=
  appendInt t.year 4 ++ '-' :: appendInt t.month 2 ++ '-' :: appendInt t.day 2 ++
    ' ' :: appendInt t.hour 2 ++ ':' :: appendInt t.minute 2 ++ ':' :: appendInt t.second 2

/-- Go function `TimeToString` of `date.go`; the time is given by its civil
fields in its own location. -/
def TimeToString (t : LocalTime) : String :=
  String.mk (Format20060102150405 t)

/-- Errors of `time.Parse`. -/
inductive ParseError where
  | bad
  | outOfRange
  | extraText
  | dayOutOfRange
  deriving DecidableEq, Repr

/-- Model of `time.isDigit(s, i)`. -/
def isDigitAt (s : List Char) (i : Nat) : Bool :=
  match s[i]? with
  | some c => decide ('0' ≤ c) && decide (c ≤ '9')
  | none => false

/-- The value `int(c - '0')` of a digit. -/
def digitValue (c : Char) : Nat := c.toNat - 48

/-- Model of `time.getnum(s, fixed)`: a number of one or two digits, of two
digits when `fixed`; `none` is `errBad`. -/
def getnum (s : List Char) (fixed : Bool) : Option (Nat × List Char) :=
  if !isDigitAt s 0 then none
  else if !isDigitAt s 1 then
    if fixed then none else some (digitValue (s.getD 0 '0'), s.drop 1)
  else some (digitValue (s.getD 0 '0') * 10 + digitValue (s.getD 1 '0'), s.drop 2)

/-- Model of `time.atoi(s)`: an optional sign, then `leadingInt` must use up
the whole of `s`; `none` is `errAtoi`.  (The overflow test of `leadingInt` is
left out: `Parse` gives `atoi` four characters.) -/
def atoi (s : List Char) : Option Int :=
  let neg := s.head? = some '-'
  let s := if s.head? = some '-' ∨ s.head? = some '+' then s.drop 1 else s
  let q := (s.takeWhile fun c => decide ('0' ≤ c) && decide (c ≤ '9')).foldl
    (fun x c => x * 10 + digitValue c) 0
  let rem := s.dropWhile fun c => decide ('0' ≤ c) && decide (c ≤ '9')
  if rem.length > 0 then none
  else if neg then some (-(q : Int)) else some (q : Int)

/-- Model of `time.cutspace(s)`. -/
def cutspace (s : List Char) : List Char := s.dropWhile fun c => c == ' '

/-- Model of `time.skip(value, prefix)`: the rest of `value` after `prefix`,
where a run of blanks of `prefix` stands for any run of blanks of `value`;
`none` is `errBad`.  The first argument bounds the iterations of the loop by
the length of `prefix`. -/
def skip : Nat → List Char → List Char → Option (List Char)
  | 0, value, _ => some value
  | fuel + 1, value, pre =>
    match pre with
    | [] => some value
    | p :: ps =>
      if p = ' ' then
        if value.length > 0 ∧ value.head? ≠ some ' ' then none
        else skip fuel (cutspace value) (cutspace (p :: ps))
      else if value.length = 0 ∨ value.head? ≠ some p then none
      else skip fuel (value.drop 1) ps

/-- Model of `time.isLeap(year)`. -/
def isLeap (year : Int) : Bool :=
  year.tmod 4 == 0 && (year.tmod 100 != 0 || year.tmod 400 == 0)

/-- Model of `time.daysIn(m, year)`. -/
def daysIn (m : Nat) (year : Int) : Nat :=
  if m = 2 then (if isLeap year then 29 else 28)
  else 30 + ((m + m >>> 3) &&& 1)

/-- Model of `time.Parse("2006-01-02 15:04:05", value)`, chunk by chunk: the
year of four digits, `-`, the month of two digits, `-`, the day of two digits,
a blank, the hour of one or two digits, `:`, the minute of two digits, `:`,
the second of two digits, an optional fraction of a second (`.` or `,` and
digits, which the civil fields of the result do not hold), the end of the
text, and at last the test of the day against the length of the month. -/
def Parse20060102150405 (value : List Char) : Except ParseError LocalTime :=
  if value.length < 4 || !isDigitAt value 0 then .error ParseError.bad
  else
    match atoi (value.take 4) with
    | none => .error ParseError.bad
    | some year =>
    match skip 1 (value.drop 4) ['-'] with
    | none => .error ParseError.bad
    | some value =>
    match getnum value true with
    | none => .error ParseError.bad
    | some (month, value) =>
    if month ≤ 0 || 12 < month then .error ParseError.outOfRange
    else
    match skip 1 value ['-'] with
    | none => .error ParseError.bad
    | some value =>
    match getnum value true with
    | none => .error ParseError.bad
    | some (day, value) =>
    match skip 1 value [' '] with
    | none => .error ParseError.bad
    | some value =>
    match getnum value false with
    | none => .error ParseError.bad
    | some (hour, value) =>
    if 24 ≤ hour then .error ParseError.outOfRange
    else
    match skip 1 value [':'] with
    | none => .error ParseError.bad
    | some value =>
    match getnum value true with
    | none => .error ParseError.bad
    | some (min, value) =>
    if 60 ≤ min then .error ParseError.outOfRange
    else
    match skip 1 value [':'] with
    | none => .error ParseError.bad
    | some value =>
    match getnum value true with
    | none => .error ParseError.bad
    | some (sec, value) =>
    if 60 ≤ sec then .error ParseError.outOfRange
    else
    let value :=
      if value.length ≥ 2 && (value.head? = some '.' || value.head? = some ',')
          && isDigitAt value 1 then
        (value.drop 1).dropWhile fun c => decide ('0' ≤ c) && decide (c ≤ '9')
      else value
    if value.length ≠ 0 then .error ParseError.extraText
    else if day < 1 || day > daysIn month year then .error ParseError.dayOutOfRange
    else .ok { year := year, month := month, day := day, hour := hour, minute := min,
               second := sec }

/-- Go function `StringToTime` of `date.go`; the result is given by its civil
fields (in UTC). -/
def StringToTime (s : String) : Except ParseError LocalTime :=
  Parse20060102150405 s.data

/-- Spec: the day of a clock reading exists in its month. -/
def LocalTime.IsDate (t : LocalTime) : Prop := t.day ≤ daysIn t.month t.year

instance (t : LocalTime) : Decidable t.IsDate := by
  unfold LocalTime.IsDate; infer_instance

/-! ## Lemmas on the random source and the loops -/

theorem Read_one_some (b : Byte) (src : RandSource) :
    Read 1 (some b :: src) = some ([b.val], src) := by
  simp [Read]

theorem Read_one_eq_some {src : RandSource} {bs : List Nat} {rest : RandSource}
    (h : Read 1 src = some (bs, rest)) : ∃ b : Byte, src = some b :: rest ∧ bs = [b.val] := by
  match src, h with
  | some b :: tl, h =>
    simp [Read] at h
    exact ⟨b, by simp [h.2], h.1.symm⟩

theorem take_succ_set (buf : List Nat) (i v : Nat) (h : i < buf.length) :
    (buf.set i v).take (i + 1) = buf.take i ++ [v] := by
  induction buf generalizing i with
  | nil => simp at h
  | cons a tl ih =>
    cases i with
    | zero => simp
    | succ j =>
      simp only [List.set_cons_succ, List.take_succ_cons, List.cons_append, List.cons.injEq,
        true_and]
      exact ih j (by simpa using h)

theorem fillLoop_ok (enc : Nat → Nat) (bs : List Byte) (rest : RandSource) :
    ∀ (i : Nat) (buf : List Nat), buf.length = i + bs.length →
      fillLoop enc bs.length i buf (bs.map some ++ rest)
        = some (buf.take i ++ bs.map (fun b => enc b.val)) := by
  induction bs with
  | nil =>
    intro i buf h
    simp only [List.length_nil, Nat.add_zero] at h
    simp [fillLoop, ← h]
  | cons b tl ih =>
    intro i buf h
    simp only [List.length_cons] at h
    simp only [List.length_cons, List.map_cons, List.cons_append, fillLoop, Read_one_some,
      List.getD_cons_zero]
    rw [ih (i + 1) _ (by simp; omega), take_succ_set _ _ _ (by omega)]
    simp

theorem fillLoop_some (enc : Nat → Nat) :
    ∀ (k i : Nat) (buf : List Nat) (src : RandSource) (r : List Nat),
      fillLoop enc k i buf src = some r →
        ∃ (bs : List Byte) (rest : RandSource), bs.length = k ∧ src = bs.map some ++ rest := by
  intro k
  induction k with
  | zero => intro i buf src r _; exact ⟨[], src, rfl, rfl⟩
  | succ k ih =>
    intro i buf src r h
    simp only [fillLoop] at h
    cases hr : Read 1 src with
    | none => simp [hr] at h
    | some p =>
      obtain ⟨b1, rest1⟩ := p
      simp only [hr] at h
      obtain ⟨b, hsrc, _⟩ := Read_one_eq_some hr
      obtain ⟨bs, rest, hlen, hrest⟩ := ih _ _ _ _ h
      exact ⟨b :: bs, rest, by simp [hlen], by simp [hsrc, hrest]⟩


/-! ## Lemmas on integer formatting -/

theorem digitsLoop_append (base : Nat) :
    ∀ (fuel u : Nat) (acc : List Char),
      digitsLoop base fuel u acc = digitsLoop base fuel u [] ++ acc := by
  intro fuel
  induction fuel with
  | zero => intro u acc; simp [digitsLoop]
  | succ f ih =>
    intro u acc
    simp only [digitsLoop]
    split
    · rw [ih _ (_ :: acc), ih _ [_]]; simp
    · simp

theorem fixedDigits_zero (base w : Nat) :
    fixedDigits base w 0 = List.replicate w '0' := by
  induction w with
  | zero => rfl
  | succ w ih =>
    simp only [fixedDigits, Nat.zero_div, Nat.zero_mod, ih]
    rw [List.replicate_succ']
    rfl

theorem pad_digitsLoop (base : Nat) :
    ∀ (w fuel u : Nat), 1 ≤ w → u < base ^ w → w ≤ fuel + 1 →
      List.replicate (w - (digitsLoop base fuel u []).length) '0' ++ digitsLoop base fuel u []
        = fixedDigits base w u := by
  intro w
  induction w with
  | zero => intro fuel u h; omega
  | succ w ih =>
    intro fuel u _ hu hf
    rcases Nat.eq_zero_or_pos w with hw | hw
    · subst hw
      simp only [Nat.zero_add, Nat.pow_one] at hu
      have hd : digitsLoop base fuel u [] = [digitChar u] := by
        cases fuel with
        | zero => rfl
        | succ f => simp [digitsLoop, Nat.not_le.mpr hu]
      simp [hd, fixedDigits, Nat.mod_eq_of_lt hu]
    · by_cases hlt : u < base
      · have hd : digitsLoop base fuel u [] = [digitChar u] := by
          cases fuel with
          | zero => rfl
          | succ f => simp [digitsLoop, Nat.not_le.mpr hlt]
        simp [hd, fixedDigits, Nat.mod_eq_of_lt hlt, Nat.div_eq_of_lt hlt, fixedDigits_zero]
      · obtain ⟨f, rfl⟩ : ∃ f, fuel = f + 1 := ⟨fuel - 1, by omega⟩
        have hdiv : u / base < base ^ w := by
          apply Nat.div_lt_of_lt_mul
          rw [Nat.pow_succ] at hu
          rwa [Nat.mul_comm]
        have hstep : digitsLoop base (f + 1) u []
            = digitsLoop base f (u / base) [] ++ [digitChar (u % base)] := by
          simp only [digitsLoop, Nat.le_of_not_lt hlt, if_true]
          exact digitsLoop_append base f _ _
        rw [hstep]
        simp only [List.length_append, List.length_singleton, Nat.add_sub_add_right, fixedDigits]
        rw [← ih f (u / base) hw hdiv (by omega), List.append_assoc]

theorem formatUint_eq_fixedDigits (base w u : Nat) (hw : 1 ≤ w) (hw64 : w ≤ 65)
    (hu : u < base ^ w) : formatUint base w u = fixedDigits base w u := by
  unfold formatUint
  exact pad_digitsLoop base w 64 u hw hu (by omega)


theorem digitChar_eq_decDigit (d : Nat) (h : d < 10) : digitChar d = decDigit d := by
  interval_cases d <;> rfl

theorem decDigit_isDigit (d : Nat) (h : d < 10) : (decDigit d).isDigit = true := by
  interval_cases d <;> rfl

theorem formatUint_two (n : Nat) (h : n < 100) : formatUint 10 2 n = twoDigits n := by
  rw [formatUint_eq_fixedDigits 10 2 n (by omega) (by omega) (by omega)]
  simp only [fixedDigits, twoDigits, List.nil_append, List.singleton_append]
  rw [digitChar_eq_decDigit _ (Nat.mod_lt _ (by omega)),
    digitChar_eq_decDigit _ (Nat.mod_lt _ (by omega)), Nat.mod_eq_of_lt (by omega : n / 10 < 10)]

theorem digitChar_eq_lowerHex (d : Nat) (h : d < 16) : digitChar d = lowerHex d := by
  interval_cases d <;> rfl

theorem or_bytes32 (a b c d : Nat) (ha : a < 256) (hb : b < 256) (hc : c < 256) (hd : d < 256) :
    (a <<< 24) % 2 ^ 32 ||| (b <<< 16) % 2 ^ 32 ||| (c <<< 8) % 2 ^ 32 ||| d
      = a * 16777216 + b * 65536 + c * 256 + d := by
  simp only [Nat.shiftLeft_eq]
  rw [Nat.mod_eq_of_lt (by omega), Nat.mod_eq_of_lt (by omega), Nat.mod_eq_of_lt (by omega)]
  have h1 := Nat.mul_add_lt_is_or (i := 24) (b := b * 2 ^ 16) (by omega) a
  have h2 := Nat.mul_add_lt_is_or (i := 16) (b := c * 2 ^ 8) (by omega) (a * 256 + b)
  have h3 := Nat.mul_add_lt_is_or (i := 8) (b := d) (by omega) (a * 65536 + b * 256 + c)
  have e1 : a * 2 ^ 24 = 2 ^ 24 * a := Nat.mul_comm _ _
  have e2 : 2 ^ 16 * (a * 256 + b) = 2 ^ 24 * a + b * 2 ^ 16 := by omega
  have e3 : 2 ^ 8 * (a * 65536 + b * 256 + c) = 2 ^ 16 * (a * 256 + b) + c * 2 ^ 8 := by omega
  rw [e1, ← h1, ← e2, ← h2, ← e3, ← h3]
  omega

theorem or_bytes16 (a b : Nat) (ha : a < 256) (hb : b < 256) :
    (a <<< 8) % 2 ^ 16 ||| b = a * 256 + b := by
  simp only [Nat.shiftLeft_eq]
  rw [Nat.mod_eq_of_lt (by omega)]
  have h1 := Nat.mul_add_lt_is_or (i := 8) (b := b) (by omega) a
  have e1 : a * 2 ^ 8 = 2 ^ 8 * a := Nat.mul_comm _ _
  rw [e1, ← h1]
  omega

theorem formatUint_hex32 (a b c d : Nat) (ha : a < 256) (hb : b < 256) (hc : c < 256)
    (hd : d < 256) :
    formatUint 16 8 ((a <<< 24) % 2 ^ 32 ||| (b <<< 16) % 2 ^ 32 ||| (c <<< 8) % 2 ^ 32 ||| d)
      = hexByte a ++ hexByte b ++ hexByte c ++ hexByte d := by
  rw [or_bytes32 a b c d ha hb hc hd,
    formatUint_eq_fixedDigits 16 8 _ (by omega) (by omega) (by omega)]
  simp only [fixedDigits, hexByte, List.nil_append, List.cons_append, List.singleton_append,
    List.append_assoc]
  repeat rw [digitChar_eq_lowerHex _ (Nat.mod_lt _ (by omega))]
  have e0 : (a * 16777216 + b * 65536 + c * 256 + d) / 16 / 16 / 16 / 16 / 16 / 16 / 16 % 16 = a / 16 := by omega
  have e1 : (a * 16777216 + b * 65536 + c * 256 + d) / 16 / 16 / 16 / 16 / 16 / 16 % 16 = a % 16 := by omega
  have e2 : (a * 16777216 + b * 65536 + c * 256 + d) / 16 / 16 / 16 / 16 / 16 % 16 = b / 16 := by omega
  have e3 : (a * 16777216 + b * 65536 + c * 256 + d) / 16 / 16 / 16 / 16 % 16 = b % 16 := by omega
  have e4 : (a * 16777216 + b * 65536 + c * 256 + d) / 16 / 16 / 16 % 16 = c / 16 := by omega
  have e5 : (a * 16777216 + b * 65536 + c * 256 + d) / 16 / 16 % 16 = c % 16 := by omega
  have e6 : (a * 16777216 + b * 65536 + c * 256 + d) / 16 % 16 = d / 16 := by omega
  have e7 : (a * 16777216 + b * 65536 + c * 256 + d) % 16 = d % 16 := by omega
  rw [e0, e1, e2, e3, e4, e5, e6, e7]


theorem formatUint_hex16 (a b : Nat) (ha : a < 256) (hb : b < 256) :
    formatUint 16 4 ((a <<< 8) % 2 ^ 16 ||| b) = hexByte a ++ hexByte b := by
  rw [or_bytes16 a b ha hb, formatUint_eq_fixedDigits 16 4 _ (by omega) (by omega) (by omega)]
  simp only [fixedDigits, hexByte, List.nil_append, List.cons_append, List.singleton_append,
    List.append_assoc]
  repeat rw [digitChar_eq_lowerHex _ (Nat.mod_lt _ (by omega))]
  have e0 : (a * 256 + b) / 16 / 16 / 16 % 16 = a / 16 := by omega
  have e1 : (a * 256 + b) / 16 / 16 % 16 = a % 16 := by omega
  have e2 : (a * 256 + b) / 16 % 16 = b / 16 := by omega
  have e3 : (a * 256 + b) % 16 = b % 16 := by omega
  rw [e0, e1, e2, e3]

theorem length_eq_sixteen {α : Type} (l : List α) (h : l.length = 16) :
    ∃ b0 b1 b2 b3 b4 b5 b6 b7 b8 b9 b10 b11 b12 b13 b14 b15,
      l = [b0, b1, b2, b3, b4, b5, b6, b7, b8, b9, b10, b11, b12, b13, b14, b15] := by
  match l, h with
  | [b0, b1, b2, b3, b4, b5, b6, b7, b8, b9, b10, b11, b12, b13, b14, b15], _ =>
    exact ⟨b0, b1, b2, b3, b4, b5, b6, b7, b8, b9, b10, b11, b12, b13, b14, b15, rfl⟩

theorem Read_ok (bs : List Byte) (rest : RandSource) :
    Read bs.length (bs.map some ++ rest) = some (bs.map (fun b => b.val), rest) := by
  induction bs with
  | nil => simp [Read]
  | cons b tl ih => simp [Read, ih]

theorem version_byte_lt (b : Nat) (h : b < 256) : (b &&& 0x0f ||| 0x40) < 256 := by
  interval_cases b <;> decide

theorem variant_byte_lt (b : Nat) (h : b < 256) : (b &&& 0x3f ||| 0x80) < 256 := by
  interval_cases b <;> decide

theorem GenerateUUIDv4_eq (bs : List Byte) (rest : RandSource) (hbs : bs.length = 16) :
    GenerateUUIDv4 (bs.map some ++ rest)
      = String.mk (canonicalUUID (setVersionVariant (bs.map fun b => b.val))) := by
  have hr := Read_ok bs rest
  rw [hbs] at hr
  obtain ⟨b0, b1, b2, b3, b4, b5, b6, b7, b8, b9, b10, b11, b12, b13, b14, b15, rfl⟩ :=
    length_eq_sixteen bs hbs
  simp only [GenerateUUIDv4, hr]
  simp only [List.map_cons, List.map_nil, List.getD_cons_succ, List.getD_cons_zero,
    List.set_cons_succ, List.set_cons_zero]
  rw [Nat.mod_eq_of_lt (version_byte_lt _ b6.isLt), Nat.mod_eq_of_lt (variant_byte_lt _ b8.isLt)]
  rw [formatUint_hex32 _ _ _ _ b0.isLt b1.isLt b2.isLt b3.isLt,
    formatUint_hex16 _ _ b4.isLt b5.isLt,
    formatUint_hex16 _ _ (version_byte_lt _ b6.isLt) b7.isLt,
    formatUint_hex16 _ _ (variant_byte_lt _ b8.isLt) b9.isLt,
    formatUint_hex16 _ _ b10.isLt b11.isLt,
    formatUint_hex32 _ _ _ _ b12.isLt b13.isLt b14.isLt b15.isLt]
  rfl


/-! ## Transaction identifiers -/

theorem Format_eq_timestamp12 (now : LocalTime) (h : now.Valid) :
    Format060102150405 now = timestamp12 now := by
  obtain ⟨_, _, _, _, _, _, _⟩ := h
  unfold Format060102150405 timestamp12
  rw [formatUint_two _ (Nat.mod_lt _ (by omega)), formatUint_two _ (by omega),
    formatUint_two _ (by omega), formatUint_two _ (by omega), formatUint_two _ (by omega),
    formatUint_two _ (by omega)]

theorem timestamp12_digits (now : LocalTime) (h : now.Valid) :
    ∀ c ∈ timestamp12 now, c.isDigit = true := by
  obtain ⟨_, _, _, _, _, _, _⟩ := h
  intro c hc
  simp only [timestamp12, twoDigits, List.mem_append, List.mem_cons, List.mem_singleton,
    List.not_mem_nil, or_false] at hc
  rcases hc with ((((((h | h) | (h | h)) | (h | h)) | (h | h)) | (h | h)) | (h | h)) <;>
    subst h <;> apply decDigit_isDigit <;> omega

theorem digitBytes_eq (bs : List Byte) :
    bytesToChars (bs.map (fun b => (48 + b.val % 10) % 256))
      = bs.map (fun b => decDigit (b.val % 10)) := by
  simp only [bytesToChars, List.map_map]
  apply List.map_congr_left
  intro b _
  have : (48 + b.val % 10) % 256 = 48 + b.val % 10 := by omega
  simp [decDigit, this]

theorem GenerateTransactionID_eq (now : LocalTime) (bs : List Byte) (rest : RandSource)
    (hnow : now.Valid) (hbs : bs.length = 8) :
    GenerateTransactionID now (bs.map some ++ rest)
      = String.mk (timestamp12 now ++ bs.map (fun b => decDigit (b.val % 10))) := by
  unfold GenerateTransactionID
  have h := fillLoop_ok (fun b => (48 + b % 10) % 256) bs rest 0 (makeBytes 8)
    (by simp [makeBytes, hbs])
  rw [hbs] at h
  simp only [h, List.take_zero, List.nil_append, Format_eq_timestamp12 now hnow, digitBytes_eq]

/-- C1. `GenerateTransactionID`: with a valid clock reading and eight bytes
delivered by the random source, the result is the twelve characters
`yyMMddHHmmss` of the clock (each field two zero-padded decimal digits)
followed by the digit `b mod 10` of each byte in read order; it has exactly
20 characters and all of them are decimal digits. -/
theorem GenerateTransactionID_format (now : LocalTime) (bs : List Byte) (rest : RandSource)
    (hnow : now.Valid) (hbs : bs.length = 8) :
    GenerateTransactionID now (bs.map some ++ rest)
        = String.mk (timestamp12 now ++ bs.map (fun b => decDigit (b.val % 10))) ∧
      (timestamp12 now).length = 12 ∧
      (GenerateTransactionID now (bs.map some ++ rest)).length = 20 ∧
      ∀ c ∈ (GenerateTransactionID now (bs.map some ++ rest)).data, c.isDigit = true := by
  rw [GenerateTransactionID_eq now bs rest hnow hbs]
  refine ⟨rfl, rfl, ?_, ?_⟩
  · simp [String.length, timestamp12, twoDigits, hbs]
  · intro c hc
    simp only [List.mem_append, List.mem_map] at hc
    rcases hc with hc | ⟨b, _, rfl⟩
    · exact timestamp12_digits now hnow c hc
    · exact decDigit_isDigit _ (Nat.mod_lt _ (by omega))

theorem GenerateTransactionID_format_witness :
    (LocalTime.mk 2024 6 7 12 34 56).Valid ∧
      ([1, 12, 255, 4, 5, 6, 7, 8] : List Byte).length = 8 ∧
      GenerateTransactionID (LocalTime.mk 2024 6 7 12 34 56)
          (([1, 12, 255, 4, 5, 6, 7, 8] : List Byte).map some ++ [none])
        = "24060712345612545678" :=
  ⟨by decide, by decide,
    (GenerateTransactionID_format (LocalTime.mk 2024 6 7 12 34 56) [1, 12, 255, 4, 5, 6, 7, 8]
      [none] (by decide) (by decide)).1.trans (by decide)⟩

/-! ## UUIDs -/

theorem lowerHex_isLowerHexDigit (d : Nat) (h : d < 16) : isLowerHexDigit (lowerHex d) = true := by
  interval_cases d <;> rfl

theorem version_nibble (b : Nat) (h : b < 256) : lowerHex ((b &&& 0x0F ||| 0x40) / 16) = '4' := by
  interval_cases b <;> rfl

theorem variant_nibble (b : Nat) (h : b < 256) :
    lowerHex ((b &&& 0x3F ||| 0x80) / 16) ∈ ['8', '9', 'a', 'b'] := by
  interval_cases b <;> decide

/-- C2. `GenerateUUIDv4`: with sixteen bytes delivered by the random source,
the result is the canonical rendering (two lowercase hexadecimal digits per
byte in index order, a hyphen after bytes 3, 5, 7 and 9) of the bytes with
byte 6 replaced by `(byte6 & 0x0F) | 0x40` and byte 8 by
`(byte8 & 0x3F) | 0x80`. -/
theorem GenerateUUIDv4_canonical (bs : List Byte) (rest : RandSource) (hbs : bs.length = 16) :
    GenerateUUIDv4 (bs.map some ++ rest)
      = String.mk (canonicalUUID (setVersionVariant (bs.map fun b => b.val))) :=
  GenerateUUIDv4_eq bs rest hbs

theorem GenerateUUIDv4_canonical_witness :
    ([0, 17, 34, 51, 68, 85, 102, 119, 136, 153, 170, 187, 204, 221, 238, 255] : List Byte).length
        = 16 ∧
      GenerateUUIDv4
          (([0, 17, 34, 51, 68, 85, 102, 119, 136, 153, 170, 187, 204, 221, 238, 255] :
            List Byte).map some ++ [none])
        = "00112233-4455-4677-8899-aabbccddeeff" :=
  ⟨by decide,
    (GenerateUUIDv4_canonical
      [0, 17, 34, 51, 68, 85, 102, 119, 136, 153, 170, 187, 204, 221, 238, 255] [none]
      (by decide)).trans (by decide)⟩

theorem GenerateUUIDv4_data (b0 b1 b2 b3 b4 b5 b6 b7 b8 b9 b10 b11 b12 b13 b14 b15 : Byte)
    (rest : RandSource) :
    (GenerateUUIDv4
      ([b0, b1, b2, b3, b4, b5, b6, b7, b8, b9, b10, b11, b12, b13, b14, b15].map some
        ++ rest)).data
      = [lowerHex (b0.val / 16), lowerHex (b0.val % 16), lowerHex (b1.val / 16),
          lowerHex (b1.val % 16), lowerHex (b2.val / 16), lowerHex (b2.val % 16),
          lowerHex (b3.val / 16), lowerHex (b3.val % 16), '-',
          lowerHex (b4.val / 16), lowerHex (b4.val % 16), lowerHex (b5.val / 16),
          lowerHex (b5.val % 16), '-',
          lowerHex ((b6.val &&& 0x0F ||| 0x40) / 16), lowerHex ((b6.val &&& 0x0F ||| 0x40) % 16),
          lowerHex (b7.val / 16), lowerHex (b7.val % 16), '-',
          lowerHex ((b8.val &&& 0x3F ||| 0x80) / 16), lowerHex ((b8.val &&& 0x3F ||| 0x80) % 16),
          lowerHex (b9.val / 16), lowerHex (b9.val % 16), '-',
          lowerHex (b10.val / 16), lowerHex (b10.val % 16), lowerHex (b11.val / 16),
          lowerHex (b11.val % 16), lowerHex (b12.val / 16), lowerHex (b12.val % 16),
          lowerHex (b13.val / 16), lowerHex (b13.val % 16), lowerHex (b14.val / 16),
          lowerHex (b14.val % 16), lowerHex (b15.val / 16), lowerHex (b15.val % 16)] := by
  rw [GenerateUUIDv4_eq [b0, b1, b2, b3, b4, b5, b6, b7, b8, b9, b10, b11, b12, b13, b14, b15] rest rfl]
  rfl

theorem GenerateUUIDv4_isUUIDv4 (bs : List Byte) (rest : RandSource) (hbs : bs.length = 16) :
    IsUUIDv4 (GenerateUUIDv4 (bs.map some ++ rest)) := by
  unfold IsUUIDv4
  obtain ⟨b0, b1, b2, b3, b4, b5, b6, b7, b8, b9, b10, b11, b12, b13, b14, b15, rfl⟩ :=
    length_eq_sixteen bs hbs
  have hd := GenerateUUIDv4_data b0 b1 b2 b3 b4 b5 b6 b7 b8 b9 b10 b11 b12 b13 b14 b15 rest
  have hx : ∀ n : Nat, isLowerHexDigit (lowerHex (n % 16)) = true := fun n =>
    lowerHex_isLowerHexDigit _ (Nat.mod_lt _ (by omega))
  have hy : ∀ b : Byte, isLowerHexDigit (lowerHex (b.val / 16)) = true := fun b =>
    lowerHex_isLowerHexDigit _ (by omega)
  refine ⟨?_, ?_, ?_, ?_, ?_, ?_, ?_, ?_⟩
  · rw [String.length, hd]; rfl
  · rw [hd]; rfl
  · rw [hd]; rfl
  · rw [hd]; rfl
  · rw [hd]; rfl
  · rw [hd]; simp [version_nibble _ b6.isLt]
  · rw [hd]; exact ⟨lowerHex ((b8.val &&& 0x3F ||| 0x80) / 16), variant_nibble _ b8.isLt, rfl⟩
  · intro i hi h8 h13 h18 h23
    rw [hd]
    have h14 : isLowerHexDigit (lowerHex ((b6.val &&& 0x0F ||| 0x40) / 16)) = true := by
      rw [version_nibble _ b6.isLt]; rfl
    have h19 : isLowerHexDigit (lowerHex ((b8.val &&& 0x3F ||| 0x80) / 16)) = true := by
      have h := variant_nibble _ b8.isLt
      simp only [List.mem_cons, List.mem_singleton, List.not_mem_nil, or_false] at h
      rcases h with h | h | h | h <;> rw [h] <;> rfl
    interval_cases i <;> first
      | (exfalso; omega)
      | simp [hx, hy, h14, h19]

/-- C3. `GenerateUUIDv4`: with sixteen bytes delivered by the random source,
the result has 36 characters, `-` at indices 8, 13, 18 and 23, `4` at index
14, one of `8`, `9`, `a`, `b` at index 19, and a lowercase hexadecimal digit
at every other index. -/
theorem GenerateUUIDv4_layout (bs : List Byte) (rest : RandSource) (hbs : bs.length = 16) :
    (GenerateUUIDv4 (bs.map some ++ rest)).length = 36 ∧
      (GenerateUUIDv4 (bs.map some ++ rest)).data[8]? = some '-' ∧
      (GenerateUUIDv4 (bs.map some ++ rest)).data[13]? = some '-' ∧
      (GenerateUUIDv4 (bs.map some ++ rest)).data[18]? = some '-' ∧
      (GenerateUUIDv4 (bs.map some ++ rest)).data[23]? = some '-' ∧
      (GenerateUUIDv4 (bs.map some ++ rest)).data[14]? = some '4' ∧
      (∃ c ∈ ['8', '9', 'a', 'b'], (GenerateUUIDv4 (bs.map some ++ rest)).data[19]? = some c) ∧
      ∀ i, i < 36 → i ≠ 8 → i ≠ 13 → i ≠ 18 → i ≠ 23 →
        ∃ c, (GenerateUUIDv4 (bs.map some ++ rest)).data[i]? = some c ∧
          isLowerHexDigit c = true :=
  GenerateUUIDv4_isUUIDv4 bs rest hbs

theorem GenerateUUIDv4_layout_witness :
    ([0, 17, 34, 51, 68, 85, 102, 119, 136, 153, 170, 187, 204, 221, 238, 255] : List Byte).length
        = 16 ∧
      (GenerateUUIDv4
          (([0, 17, 34, 51, 68, 85, 102, 119, 136, 153, 170, 187, 204, 221, 238, 255] :
            List Byte).map some ++ [])).length = 36 :=
  ⟨by decide,
    (GenerateUUIDv4_layout
      [0, 17, 34, 51, 68, 85, 102, 119, 136, 153, 170, 187, 204, 221, 238, 255] []
      (by decide)).1⟩

/-! ## Outcomes of the random source -/

theorem fillLoop_delivered (enc : Nat → Nat) (bs : List Byte) (rest : RandSource) :
    fillLoop enc bs.length 0 (makeBytes bs.length) (bs.map some ++ rest)
      = some (bs.map fun b => enc b.val) := by
  rw [fillLoop_ok enc bs rest 0 (makeBytes bs.length) (by simp [makeBytes])]
  simp

theorem fillLoop_not_delivered (enc : Nat → Nat) (n : Nat) (src : RandSource)
    (h : ¬ Delivers n src) : fillLoop enc n 0 (makeBytes n) src = none := by
  cases hf : fillLoop enc n 0 (makeBytes n) src with
  | none => rfl
  | some r => exact absurd (fillLoop_some enc n 0 _ src r hf) h

theorem Read_some :
    ∀ (n : Nat) (src : RandSource) (p : List Nat × RandSource),
      Read n src = some p → Delivers n src := by
  intro n
  induction n with
  | zero => intro src p _; exact ⟨[], src, rfl, rfl⟩
  | succ n ih =>
    intro src p h
    match src, h with
    | some b :: tl, h =>
      simp only [Read] at h
      cases hr : Read n tl with
      | none => simp [hr] at h
      | some q =>
        obtain ⟨bs, rest, hlen, htl⟩ := ih tl q hr
        exact ⟨b :: bs, rest, by simp [hlen], by simp [htl]⟩

theorem Read_not_delivered (n : Nat) (src : RandSource) (h : ¬ Delivers n src) :
    Read n src = none := by
  cases hr : Read n src with
  | none => rfl
  | some p => exact absurd (Read_some n src p hr) h

/-! ## Six-digit codes -/

theorem GenerateUnique6Digits_eq (bs : List Byte) (rest : RandSource) (hbs : bs.length = 6) :
    GenerateUnique6Digits (bs.map some ++ rest)
      = String.mk (bs.map fun b => decDigit (b.val % 10)) := by
  unfold GenerateUnique6Digits
  have h := fillLoop_delivered (fun b => (48 + b % 10) % 256) bs rest
  rw [hbs] at h
  simp only [h, digitBytes_eq]

theorem digits_isDigit (bs : List Byte) :
    ∀ c ∈ bs.map (fun b => decDigit (b.val % 10)), c.isDigit = true := by
  intro c hc
  obtain ⟨b, _, rfl⟩ := List.mem_map.mp hc
  exact decDigit_isDigit _ (Nat.mod_lt _ (by omega))

/-- C6. `GenerateUnique6Digits`: with six bytes delivered by the random
source, the result has exactly 6 characters, all decimal digits, the i-th
being the digit `b mod 10` of the i-th byte. -/
theorem GenerateUnique6Digits_format (bs : List Byte) (rest : RandSource)
    (hbs : bs.length = 6) :
    GenerateUnique6Digits (bs.map some ++ rest)
        = String.mk (bs.map fun b => decDigit (b.val % 10)) ∧
      (GenerateUnique6Digits (bs.map some ++ rest)).length = 6 ∧
      (∀ c ∈ (GenerateUnique6Digits (bs.map some ++ rest)).data, c.isDigit = true) ∧
      ∀ (i : Nat) (b : Byte), bs[i]? = some b →
        (GenerateUnique6Digits (bs.map some ++ rest)).data[i]? = some (decDigit (b.val % 10)) := by
  rw [GenerateUnique6Digits_eq bs rest hbs]
  refine ⟨rfl, by simp [String.length, hbs], digits_isDigit bs, ?_⟩
  intro i b hb
  simp [hb]

theorem GenerateUnique6Digits_format_witness :
    ([1, 12, 255, 4, 5, 6] : List Byte).length = 6 ∧
      GenerateUnique6Digits (([1, 12, 255, 4, 5, 6] : List Byte).map some ++ [none]) = "125456" :=
  ⟨by decide,
    (GenerateUnique6Digits_format [1, 12, 255, 4, 5, 6] [none] (by decide)).1.trans (by decide)⟩

/-! ## Random strings -/

theorem charset_length : charset.length = 64 := by decide

theorem charset_getD_mem (i : Nat) (h : i < 64) : charset.getD i '\x00' ∈ charset := by
  interval_cases i <;> decide

theorem charset_getD_eq (i : Nat) (h : i < 64) : some (charset.getD i '\x00') = charset[i]? := by
  interval_cases i <;> rfl

theorem charBytes_eq (bs : List Byte) :
    bytesToChars (bs.map fun b => (charset.getD (b.val % (charset.length % 256)) '\x00').toNat)
      = bs.map fun b => charset.getD (b.val % 64) '\x00' := by
  simp only [bytesToChars, List.map_map]
  apply List.map_congr_left
  intro b _
  simp [charset_length]

theorem GenerateRandomString_eq (length : Int) (bs : List Byte) (rest : RandSource)
    (hpos : 0 < length) (hbs : bs.length = length.toNat) :
    GenerateRandomString length (bs.map some ++ rest)
      = String.mk (bs.map fun b => charset.getD (b.val % 64) '\x00') := by
  unfold GenerateRandomString
  rw [if_neg (by omega)]
  have h := fillLoop_delivered
    (fun b => (charset.getD (b % (charset.length % 256)) '\x00').toNat) bs rest
  rw [hbs] at h
  simp only [h, charBytes_eq]

theorem GenerateRandomString_fail (length : Int) (src : RandSource)
    (h : ¬ Delivers length.toNat src) : GenerateRandomString length src = "" := by
  unfold GenerateRandomString
  split
  · rfl
  · simp only [fillLoop_not_delivered _ _ src h]

theorem GenerateRandomString_nonpos (length : Int) (src : RandSource) (h : length ≤ 0) :
    GenerateRandomString length src = "" := by
  unfold GenerateRandomString
  rw [if_pos h]

/-- C4. `GenerateRandomString`: for a length `L >= 0` and a random source
whose first `L` deliveries succeed, the result has exactly `L` characters;
for `L < 0` the result is the empty string. -/
theorem GenerateRandomString_length (length : Int) :
    (0 ≤ length → ∀ (bs : List Byte) (rest : RandSource), bs.length = length.toNat →
        ((GenerateRandomString length (bs.map some ++ rest)).length : Int) = length) ∧
      (length < 0 → ∀ src : RandSource, GenerateRandomString length src = "") := by
  constructor
  · intro h0 bs rest hbs
    rcases lt_or_eq_of_le h0 with hpos | hz
    · rw [GenerateRandomString_eq length bs rest hpos hbs]
      simp only [String.length, List.length_map, hbs]
      omega
    · subst hz
      rw [GenerateRandomString_nonpos 0 _ (Int.le_refl 0)]
      rfl
  · intro hneg src
    exact GenerateRandomString_nonpos length src (Int.le_of_lt hneg)

theorem GenerateRandomString_length_witness :
    ((GenerateRandomString 3 (([0, 63, 64] : List Byte).map some ++ [none])).length : Int) = 3 ∧
      GenerateRandomString (-5) [some 7] = "" :=
  ⟨(GenerateRandomString_length 3).1 (by decide) [0, 63, 64] [none] (by decide),
    (GenerateRandomString_length (-5)).2 (by decide) [some 7]⟩

theorem charset_inAlphabet : ∀ c ∈ charset, inAlphabet c = true := by decide

theorem GenerateRandomString_cases (length : Int) (src : RandSource) :
    GenerateRandomString length src = "" ∨
      ∃ (bs : List Byte) (rest : RandSource), 0 < length ∧ bs.length = length.toNat ∧
        src = bs.map some ++ rest ∧
        GenerateRandomString length src
          = String.mk (bs.map fun b => charset.getD (b.val % 64) '\x00') := by
  by_cases hpos : 0 < length
  · by_cases hd : Delivers length.toNat src
    · obtain ⟨bs, rest, hlen, rfl⟩ := hd
      exact Or.inr ⟨bs, rest, hpos, hlen, rfl, GenerateRandomString_eq length bs rest hpos hlen⟩
    · exact Or.inl (GenerateRandomString_fail length src hd)
  · exact Or.inl (GenerateRandomString_nonpos length src (by omega))

/-- C5. `GenerateRandomString`: for every length and every random source,
every character of the result belongs to the alphabet of 64 characters
(`0`-`9`, `A`-`Z`, `a`-`z`, `_`, `-`), and the i-th character of the result is
the alphabet symbol at index `b mod 64` for the byte `b` that the i-th
delivery of the source gave. -/
theorem GenerateRandomString_alphabet (length : Int) (src : RandSource) :
    charset.length = 64 ∧ (∀ c ∈ charset, inAlphabet c = true) ∧
      (∀ c ∈ (GenerateRandomString length src).data, c ∈ charset) ∧
      ∀ i : Nat, i < (GenerateRandomString length src).length →
        ∃ b : Byte, src[i]? = some (some b) ∧
          (GenerateRandomString length src).data[i]? = charset[b.val % 64]? := by
  refine ⟨charset_length, charset_inAlphabet, ?_, ?_⟩
  · rcases GenerateRandomString_cases length src with h | ⟨bs, rest, _, _, _, h⟩
    · simp [h]
    · rw [h]
      intro c hc
      obtain ⟨b, _, rfl⟩ := List.mem_map.mp hc
      exact charset_getD_mem _ (Nat.mod_lt _ (by omega))
  · rcases GenerateRandomString_cases length src with h | ⟨bs, rest, _, _, hsrc, h⟩
    · simp [h]
    · rw [h]
      intro i hi
      simp only [String.length, List.length_map] at hi
      refine ⟨bs[i], ?_, ?_⟩
      · rw [hsrc, List.getElem?_append_left (by simpa using hi)]
        simp [List.getElem?_eq_getElem hi]
      · rw [← charset_getD_eq _ (Nat.mod_lt _ (by omega))]
        simp [List.getElem?_eq_getElem hi]

theorem GenerateRandomString_alphabet_witness :
    ∃ b : Byte, [some (200 : Byte), some 63, none][1]? = some (some b) ∧
      (GenerateRandomString 2 [some 200, some 63, none]).data[1]? = charset[b.val % 64]? :=
  (GenerateRandomString_alphabet 2 [some 200, some 63, none]).2.2.2 1 (by decide)

/-! ## Failure of the random source -/

theorem GenerateTransactionID_fail (now : LocalTime) (src : RandSource)
    (h : ¬ Delivers 8 src) : GenerateTransactionID now src = "" := by
  unfold GenerateTransactionID
  simp only [fillLoop_not_delivered _ _ src h]

theorem GenerateUnique6Digits_fail (src : RandSource) (h : ¬ Delivers 6 src) :
    GenerateUnique6Digits src = "" := by
  unfold GenerateUnique6Digits
  simp only [fillLoop_not_delivered _ _ src h]

theorem GenerateUUIDv4_fail (src : RandSource) (h : ¬ Delivers 16 src) :
    GenerateUUIDv4 src = "" := by
  unfold GenerateUUIDv4
  simp only [Read_not_delivered _ src h]

theorem fullOrEmpty_of (n : Nat) (format : String → Prop) (gen : RandSource → String)
    (hok : ∀ (bs : List Byte) (rest : RandSource), bs.length = n →
      format (gen (bs.map some ++ rest)))
    (hfail : ∀ src, ¬ Delivers n src → gen src = "") (src : RandSource) :
    FullOrEmpty n src format (gen src) := by
  by_cases hd : Delivers n src
  · obtain ⟨bs, rest, hlen, rfl⟩ := hd
    exact Or.inl ⟨⟨bs, rest, hlen, rfl⟩, hok bs rest hlen⟩
  · exact Or.inr ⟨hd, hfail src hd⟩

theorem GenerateTransactionID_isTransactionID (now : LocalTime) (bs : List Byte)
    (rest : RandSource) (hnow : now.Valid) (hbs : bs.length = 8) :
    IsTransactionID now (GenerateTransactionID now (bs.map some ++ rest)) := by
  rw [GenerateTransactionID_eq now bs rest hnow hbs]
  refine ⟨?_, ?_, ?_⟩
  · simp [String.length, timestamp12, twoDigits, hbs]
  · exact List.take_left' rfl
  · intro c hc
    rcases List.mem_append.mp hc with hc | hc
    · exact timestamp12_digits now hnow c hc
    · exact digits_isDigit bs c hc

theorem GenerateUnique6Digits_isSixDigits (bs : List Byte) (rest : RandSource)
    (hbs : bs.length = 6) : IsSixDigits (GenerateUnique6Digits (bs.map some ++ rest)) := by
  rw [GenerateUnique6Digits_eq bs rest hbs]
  exact ⟨by simp [String.length, hbs], digits_isDigit bs⟩

theorem GenerateRandomString_isRandomString (length : Int) (bs : List Byte) (rest : RandSource)
    (hpos : 0 < length) (hbs : bs.length = length.toNat) :
    IsRandomString length (GenerateRandomString length (bs.map some ++ rest)) := by
  rw [GenerateRandomString_eq length bs rest hpos hbs]
  refine ⟨?_, ?_⟩
  · simp only [String.length, List.length_map, hbs]
    omega
  · intro c hc
    obtain ⟨b, _, rfl⟩ := List.mem_map.mp hc
    exact charset_getD_mem _ (Nat.mod_lt _ (by omega))

/-- C7. Every generator is all-or-nothing on the random source: for every
clock reading, every positive length and every outcome of the source,
`GenerateTransactionID`, `GenerateUnique6Digits`, `GenerateUUIDv4` and
`GenerateRandomString` return a value of their full format and length when
all the deliveries they read (8, 6, 16, `length`) succeed, and the empty
string when one of them fails, at whatever position. -/
theorem generators_full_or_empty (now : LocalTime) (length : Int) (src : RandSource)
    (hnow : now.Valid) (hpos : 0 < length) :
    FullOrEmpty 8 src (IsTransactionID now) (GenerateTransactionID now src) ∧
      FullOrEmpty 6 src IsSixDigits (GenerateUnique6Digits src) ∧
      FullOrEmpty 16 src IsUUIDv4 (GenerateUUIDv4 src) ∧
      FullOrEmpty length.toNat src (IsRandomString length) (GenerateRandomString length src) :=
  ⟨fullOrEmpty_of 8 _ (GenerateTransactionID now)
      (fun bs rest h => GenerateTransactionID_isTransactionID now bs rest hnow h)
      (GenerateTransactionID_fail now) src,
    fullOrEmpty_of 6 _ GenerateUnique6Digits GenerateUnique6Digits_isSixDigits
      GenerateUnique6Digits_fail src,
    fullOrEmpty_of 16 _ GenerateUUIDv4 GenerateUUIDv4_isUUIDv4 GenerateUUIDv4_fail src,
    fullOrEmpty_of length.toNat _ (GenerateRandomString length)
      (fun bs rest h => GenerateRandomString_isRandomString length bs rest hpos h)
      (GenerateRandomString_fail length) src⟩

theorem generators_full_or_empty_witness :
    (LocalTime.mk 2024 6 7 12 34 56).Valid ∧ (0 : Int) < 4 ∧
      FullOrEmpty 8 [some 1, some 2, some 3, none] (IsTransactionID (LocalTime.mk 2024 6 7 12 34 56))
        (GenerateTransactionID (LocalTime.mk 2024 6 7 12 34 56) [some 1, some 2, some 3, none]) ∧
      FullOrEmpty 6 [some 1, some 2, some 3, none] IsSixDigits
        (GenerateUnique6Digits [some 1, some 2, some 3, none]) ∧
      FullOrEmpty 16 [some 1, some 2, some 3, none] IsUUIDv4
        (GenerateUUIDv4 [some 1, some 2, some 3, none]) ∧
      FullOrEmpty (4 : Int).toNat [some 1, some 2, some 3, none] (IsRandomString 4)
        (GenerateRandomString 4 [some 1, some 2, some 3, none]) :=
  ⟨by decide, by decide,
    generators_full_or_empty (LocalTime.mk 2024 6 7 12 34 56) 4 [some 1, some 2, some 3, none]
      (by decide) (by decide)⟩

/-! ## Password hashes -/

/-- C8. `CheckPasswordHash`: it returns `(true, nil)` exactly when the
comparison primitive reports a match, `(false, nil)` exactly when the
primitive reports `ErrMismatchedHashAndPassword`, and `false` together with
the primitive's error for every other error; it never returns `true`
together with an error. -/
theorem CheckPasswordHash_outcomes {Err : Type} [DecidableEq Err] (B : Bcrypt Err)
    (password hash : String) :
    (CheckPasswordHash B password hash = (true, none) ↔
        B.CompareHashAndPassword hash password = none) ∧
      (CheckPasswordHash B password hash = (false, none) ↔
        B.CompareHashAndPassword hash password = some B.ErrMismatchedHashAndPassword) ∧
      (∀ e : Err, B.CompareHashAndPassword hash password = some e →
        e ≠ B.ErrMismatchedHashAndPassword →
          CheckPasswordHash B password hash = (false, some e)) ∧
      ∀ e : Err, CheckPasswordHash B password hash ≠ (true, some e) := by
  unfold CheckPasswordHash
  cases h : B.CompareHashAndPassword hash password with
  | none => simp
  | some err =>
    by_cases he : err = B.ErrMismatchedHashAndPassword
    · simp [he]
    · simp [he]

theorem CheckPasswordHash_outcomes_witness :
    CheckPasswordHash guardedBcrypt "secret" "corrupted" = (false, some BcryptError.ErrHashTooShort) :=
  (CheckPasswordHash_outcomes guardedBcrypt "secret" "corrupted").2.2.1
    BcryptError.ErrHashTooShort (by decide) (by decide)

theorem fitField_length (k : Nat) (src : List Char) : (fitField k src).length = k := by
  simp only [fitField, List.length_append, List.length_take, List.length_replicate]
  omega

theorem fitField_of_length (k : Nat) (src : List Char) (h : src.length = k) :
    fitField k src = src := by
  simp [fitField, h]

theorem Hash_default (salt d : List Char) (hs : salt.length = 22) :
    Hashed.Hash { hash := d, salt := salt, cost := 10, major := '2', minor := 'a' }
      = "$2a$10$".data ++ (salt ++ fitField 31 d) := by
  have hcost : fitField 2 (formatUint 10 2 10) = ['1', '0'] := by decide
  have hminor : ('a' : Char) ≠ Char.ofNat 0 := by decide
  simp only [Hashed.Hash, hcost, hminor, fitField_of_length 22 salt hs, ne_eq, not_false_eq_true,
    if_true, List.cons_append, List.nil_append, List.append_assoc]

theorem newFromHash_default (salt x : List Char) (hs : salt.length = 22) (hx : x.length = 31) :
    newFromHash ("$2a$10$".data ++ (salt ++ x))
      = .ok { hash := x, salt := salt, cost := 10, major := '2', minor := 'a' } := by
  have hlen : ¬ ("$2a$10$".data ++ (salt ++ x)).length < 59 := by
    simp [hs, hx]
  have hcost : atoiCost '1' '0' = some 10 := by decide
  have hrange : ¬ ((10 : Int) < (MinCost : Int) ∨ (10 : Int) > (MaxCost : Int)) := by decide
  unfold newFromHash
  rw [if_neg hlen]
  simp only [String.data, List.cons_append, List.nil_append, List.getD_cons_zero,
    List.getD_cons_succ, ne_eq, not_true_eq_false, if_false, List.drop_succ_cons, List.drop_zero]
  have h2 : ¬ ('2' : Char) > '2' := by decide
  have ha : ('a' : Char) ≠ '$' := by decide
  simp only [h2, ha, if_false, ne_eq, not_false_eq_true, if_true, List.drop_succ_cons,
    List.drop_zero, List.getD_cons_zero, List.getD_cons_succ, hcost, hrange,
    List.take_left' hs, List.drop_left' hs]
  rfl

theorem GenerateFromPassword_ok (E : Eksblowfish) (p : String) (salt d : List Char)
    (hlen : p.utf8ByteSize ≤ 72) (hsalt : E.salt = .ok salt) (hs : salt.length = 22)
    (hd : E.digest (keyStream p) 10 salt = .ok d) :
    GenerateFromPassword E p DefaultCost
      = .ok (String.mk ("$2a$10$".data ++ (salt ++ fitField 31 d))) := by
  unfold GenerateFromPassword
  rw [if_neg (by omega)]
  have hc : (if DefaultCost < MinCost then DefaultCost else DefaultCost) = 10 := by decide
  have hr : ¬ ((10 : Nat) < MinCost ∨ (10 : Nat) > MaxCost) := by decide
  simp only [hc, hr, if_false, hsalt, hd, Hash_default salt d hs]

theorem GenerateFromPassword_long (E : Eksblowfish) (p : String) (cost : Nat)
    (hlen : 72 < p.utf8ByteSize) :
    GenerateFromPassword E p cost = .error BcryptError.ErrPasswordTooLong := by
  unfold GenerateFromPassword
  rw [if_pos hlen]

theorem CompareHashAndPassword_default (E : Eksblowfish) (q : String) (salt d d2 : List Char)
    (hs : salt.length = 22) (hq : E.digest (keyStream q) 10 salt = .ok d2) :
    CompareHashAndPassword E (String.mk ("$2a$10$".data ++ (salt ++ fitField 31 d))) q
      = if fitField 31 d2 = fitField 31 d then none
        else some BcryptError.ErrMismatchedHashAndPassword := by
  unfold CompareHashAndPassword
  simp only [newFromHash_default salt (fitField 31 d) hs (fitField_length 31 d), hq,
    Hash_default salt _ hs, fitField_of_length 31 (fitField 31 d) (fitField_length 31 d),
    List.append_cancel_left_eq]
  by_cases h : fitField 31 d2 = fitField 31 d
  · rw [if_pos h, if_pos h.symm]
  · rw [if_neg h, if_neg (fun h2 => h h2.symm)]

theorem HashPassword_default (E : Eksblowfish) (p : String) (salt d : List Char)
    (hlen : p.utf8ByteSize ≤ 72) (hsalt : E.salt = .ok salt) (hs : salt.length = 22)
    (hd : E.digest (keyStream p) 10 salt = .ok d) :
    HashPassword (bcryptOn E) p = String.mk ("$2a$10$".data ++ (salt ++ fitField 31 d)) := by
  simp only [HashPassword, bcryptOn, GenerateFromPassword_ok E p salt d hlen hsalt hs hd]

theorem CheckPasswordHash_default (E : Eksblowfish) (q : String) (salt d d2 : List Char)
    (hs : salt.length = 22) (hq : E.digest (keyStream q) 10 salt = .ok d2) :
    CheckPasswordHash (bcryptOn E) q (String.mk ("$2a$10$".data ++ (salt ++ fitField 31 d)))
      = (decide (fitField 31 d2 = fitField 31 d), none) := by
  simp only [CheckPasswordHash, bcryptOn, CompareHashAndPassword_default E q salt d d2 hs hq]
  by_cases h : fitField 31 d2 = fitField 31 d
  · simp [h]
  · simp [h]

/-- C9, as the claim states it, fails on both halves.  A plaintext of 73 bytes
is refused by `GenerateFromPassword`, so `HashPassword` returns the empty
string and `CheckPasswordHash` of the same plaintext against it returns
`false` with `ErrHashTooShort`.  And the plaintext `a` followed by a zero byte
and `a` differs from the plaintext `a` but gives the same key stream, so
`CheckPasswordHash` of it against the hash of `a` returns `true`; so does the
plaintext of 73 letters `a` against the hash of the plaintext of 72. -/
theorem HashPassword_roundtrip_counterexample :
    (HashPassword (bcryptOn sampleEksblowfish) (String.mk (List.replicate 73 'a')) = "" ∧
      CheckPasswordHash (bcryptOn sampleEksblowfish) (String.mk (List.replicate 73 'a'))
          (HashPassword (bcryptOn sampleEksblowfish) (String.mk (List.replicate 73 'a')))
        = (false, some BcryptError.ErrHashTooShort)) ∧
      ("a\x00a" ≠ "a" ∧ keyStream "a\x00a" = keyStream "a" ∧
        CheckPasswordHash (bcryptOn sampleEksblowfish) "a\x00a"
            (HashPassword (bcryptOn sampleEksblowfish) "a")
          = (true, none)) ∧
      (String.mk (List.replicate 73 'a') ≠ String.mk (List.replicate 72 'a') ∧
        CheckPasswordHash (bcryptOn sampleEksblowfish) (String.mk (List.replicate 73 'a'))
            (HashPassword (bcryptOn sampleEksblowfish) (String.mk (List.replicate 72 'a')))
          = (true, none)) := by
  decide

/-- C9, amended. For every plaintext `p` of at most 72 bytes, when the salt
is read and the digest of `p` is computed, `CheckPasswordHash(p,
HashPassword(p))` returns `true` with no error; and for every plaintext `q`
whose digest is computed, `CheckPasswordHash(q, HashPassword(p))` returns no
error, and `false` exactly when the digest of `q` under the salt and the cost
of the hash differs from the digest of `p`, which it does not when `q` and `p`
give the same 72 bytes of key stream. -/
theorem HashPassword_roundtrip (E : Eksblowfish) (p : String) (salt d : List Char)
    (hlen : p.utf8ByteSize ≤ 72) (hsalt : E.salt = .ok salt) (hs : salt.length = 22)
    (hd : E.digest (keyStream p) 10 salt = .ok d) :
    CheckPasswordHash (bcryptOn E) p (HashPassword (bcryptOn E) p) = (true, none) ∧
      (∀ (q : String) (d2 : List Char), E.digest (keyStream q) 10 salt = .ok d2 →
        CheckPasswordHash (bcryptOn E) q (HashPassword (bcryptOn E) p)
          = (decide (fitField 31 d2 = fitField 31 d), none)) ∧
      ∀ q : String, keyStream q = keyStream p →
        CheckPasswordHash (bcryptOn E) q (HashPassword (bcryptOn E) p) = (true, none) := by
  rw [HashPassword_default E p salt d hlen hsalt hs hd]
  refine ⟨?_, ?_, ?_⟩
  · rw [CheckPasswordHash_default E p salt d d hs hd]
    simp
  · intro q d2 hq
    exact CheckPasswordHash_default E q salt d d2 hs hq
  · intro q hk
    rw [CheckPasswordHash_default E q salt d d hs (by rw [hk]; exact hd)]
    simp

theorem HashPassword_roundtrip_witness :
    "secret".utf8ByteSize ≤ 72 ∧
      sampleEksblowfish.salt = .ok "N9qo8uLOickgx2ZMRZoMye".data ∧
      "N9qo8uLOickgx2ZMRZoMye".data.length = 22 ∧
      CheckPasswordHash (bcryptOn sampleEksblowfish) "secret"
          (HashPassword (bcryptOn sampleEksblowfish) "secret") = (true, none) ∧
      CheckPasswordHash (bcryptOn sampleEksblowfish) "Secret"
          (HashPassword (bcryptOn sampleEksblowfish) "secret") = (false, none) :=
  ⟨by decide, rfl, by decide,
    (HashPassword_roundtrip sampleEksblowfish "secret" "N9qo8uLOickgx2ZMRZoMye".data
      (sampleDigest (keyStream "secret") 10 "N9qo8uLOickgx2ZMRZoMye".data)
      (by decide) rfl (by decide) rfl).1,
    ((HashPassword_roundtrip sampleEksblowfish "secret" "N9qo8uLOickgx2ZMRZoMye".data
      (sampleDigest (keyStream "secret") 10 "N9qo8uLOickgx2ZMRZoMye".data)
      (by decide) rfl (by decide) rfl).2.1 "Secret"
      (sampleDigest (keyStream "Secret") 10 "N9qo8uLOickgx2ZMRZoMye".data) rfl).trans
      (by decide)⟩

/-! ## Phone numbers -/

theorem foldl_builder (p : Char → Bool) (l : List Char) :
    ∀ acc : List Char,
      l.foldl (fun sb r => if p r then sb ++ [r] else sb) acc = acc ++ l.filter p := by
  induction l with
  | nil => intro acc; simp
  | cons a tl ih =>
    intro acc
    simp only [List.foldl_cons, ih, List.filter_cons]
    split <;> simp

theorem prefix_rule (d : List Char) :
    (if "62".data.isPrefixOf d then String.mk d
      else if "0".data.isPrefixOf d then String.mk ("62".data ++ d.drop 1)
      else if "8".data.isPrefixOf d then String.mk ("62".data ++ d)
      else String.mk d) = String.mk (normalizeDigits d) := by
  unfold normalizeDigits
  match d with
  | [] => simp [List.isPrefixOf]
  | [a] =>
    simp only [List.isPrefixOf, beq_iff_eq, Bool.and_true, Bool.and_false, Bool.false_eq_true,
      if_false, List.take, List.head?, List.tail, List.drop, List.cons.injEq, and_false,
      Option.some.injEq, List.cons_append, List.nil_append, and_true,
      eq_comm (a := '0'), eq_comm (a := '8')]
    split_ifs <;> simp_all
  | a :: b :: tl =>
    simp only [List.isPrefixOf, beq_iff_eq, Bool.and_true, Bool.and_eq_true, List.take,
      List.head?, List.tail, List.drop, List.cons.injEq, and_true,
      Option.some.injEq, List.cons_append, List.nil_append,
      eq_comm (a := '0'), eq_comm (a := '8'), eq_comm (a := '6'), eq_comm (a := '2')]
    split_ifs <;> simp_all

/-- C10. `NormalizePhoneNumber`: with `d` the digit characters of the input
in their order (every other character removed), the result is `d` if `d`
starts with `62`, otherwise `62` followed by `d` without its first character
if `d` starts with `0`, otherwise `62` followed by `d` if `d` starts with `8`,
otherwise `d`; the rule gives the empty string on the empty digit string. -/
theorem NormalizePhoneNumber_spec (nd : Char → Bool) (phone : String) :
    NormalizePhoneNumber nd phone
        = String.mk (normalizeDigits (phone.data.filter (IsDigit nd))) ∧
      normalizeDigits [] = [] := by
  refine ⟨?_, rfl⟩
  unfold NormalizePhoneNumber
  simp only [foldl_builder, List.nil_append]
  exact prefix_rule _

/-- The table of `TestNormalizePhoneNumber` (`helpers_test.go`) on the model;
none of its inputs has a character above Latin-1. -/
theorem NormalizePhoneNumber_test_table :
    NormalizePhoneNumber (fun _ => false) "628123456789" = "628123456789" ∧
      NormalizePhoneNumber (fun _ => false) "08123456789" = "628123456789" ∧
      NormalizePhoneNumber (fun _ => false) "8123456789" = "628123456789" ∧
      NormalizePhoneNumber (fun _ => false) "+62 812-3456-789" = "628123456789" ∧
      NormalizePhoneNumber (fun _ => false) "(0812) 3456-789" = "628123456789" ∧
      NormalizePhoneNumber (fun _ => false) "62-812-3456-789" = "628123456789" ∧
      NormalizePhoneNumber (fun _ => false) "abc" = "" ∧
      NormalizePhoneNumber (fun _ => false) "" = "" ∧
      NormalizePhoneNumber (fun _ => false) "+0812-3456-789" = "628123456789" ∧
      NormalizePhoneNumber (fun _ => false) "62 812 3456 789" = "628123456789" := by
  decide

/-! ## Names -/

theorem setLoop_getElem? {α : Type} (g : α → α) (d : α) :
    ∀ (n s : Nat) (l : List α) (i : Nat),
      ((List.range' s n).foldl (fun acc j => acc.set j (g (acc.getD j d))) l)[i]?
        = if s ≤ i ∧ i < s + n then l[i]?.map g else l[i]? := by
  intro n
  induction n with
  | zero =>
    intro s l i
    simp only [List.range'_zero, List.foldl_nil, Nat.add_zero]
    rw [if_neg (by omega)]
  | succ n ih =>
    intro s l i
    simp only [List.range'_succ, List.foldl_cons]
    rw [ih (s + 1)]
    by_cases hsi : s = i
    · subst hsi
      rw [if_neg (by omega), if_pos (by omega)]
      by_cases hlt : s < l.length
      · simp [List.getElem?_set, hlt, List.getD_eq_getElem?_getD, List.getElem?_eq_getElem hlt]
      · have hle : l.length ≤ s := Nat.le_of_not_lt hlt
        rw [List.getElem?_eq_none (by simpa using hle), List.getElem?_eq_none hle]
        rfl
    · rw [List.getElem?_set_ne hsi]
      by_cases h1 : s + 1 ≤ i ∧ i < s + 1 + n
      · rw [if_pos h1, if_pos (by omega)]
      · rw [if_neg h1, if_neg (by omega)]

theorem setLoop_all {α : Type} (g : α → α) (d : α) (l : List α) :
    (List.range' 0 l.length).foldl (fun acc j => acc.set j (g (acc.getD j d))) l = l.map g := by
  apply List.ext_getElem?
  intro i
  rw [setLoop_getElem?, List.getElem?_map]
  by_cases h : i < l.length
  · rw [if_pos (by omega)]
  · rw [if_neg (by omega), List.getElem?_eq_none (Nat.le_of_not_lt h)]
    rfl

theorem setLoop_tail {α : Type} (g : α → α) (d : α) (c : α) (cs : List α) :
    (List.range' 1 cs.length).foldl (fun acc j => acc.set j (g (acc.getD j d))) (c :: cs)
      = c :: cs.map g := by
  apply List.ext_getElem?
  intro i
  rw [setLoop_getElem?]
  cases i with
  | zero => simp
  | succ k =>
    simp only [List.getElem?_cons_succ, List.getElem?_map]
    by_cases h : k < cs.length
    · rw [if_pos (by omega)]
    · rw [if_neg (by omega)]
      simp [List.getElem?_eq_none (Nat.le_of_not_lt h)]

theorem capitalizeAt_eq (up lo : Char → Char) (words : List (List Char)) (i : Nat) :
    capitalizeAt up lo words i = words.set i (capitalizeWord up lo (words.getD i [])) := by
  unfold capitalizeAt
  by_cases hi : i < words.length
  · have hget : words.getD i [] = words[i] := by
      simp [List.getD_eq_getElem?_getD, List.getElem?_eq_getElem hi]
    rw [hget]
    cases hw : words[i] with
    | nil =>
      simp only [List.length_nil, if_true, capitalizeWord]
      rw [← hw]
      apply List.ext_getElem?
      intro k
      by_cases hk : i = k
      · subst hk; simp [hi]
      · rw [List.getElem?_set_ne hk]
    | cons c cs =>
      simp only [List.length_cons, Nat.add_one_ne_zero, if_false, List.set_cons_zero,
        List.getD_cons_zero, Nat.add_sub_cancel, capitalizeWord]
      rw [setLoop_tail]
  · have hget : words.getD i [] = [] := by
      simp [List.getD_eq_getElem?_getD, List.getElem?_eq_none (Nat.le_of_not_lt hi)]
    have hle : words.length ≤ i := Nat.le_of_not_lt hi
    simp only [hget, List.length_nil, if_true, capitalizeWord]
    rw [List.set_eq_of_length_le hle]

theorem capitalize_loop (up lo : Char → Char) (words : List (List Char)) :
    (List.range words.length).foldl (capitalizeAt up lo) words
      = words.map (capitalizeWord up lo) := by
  have h : capitalizeAt up lo
      = fun acc j => acc.set j (capitalizeWord up lo (acc.getD j [])) := by
    funext words i
    exact capitalizeAt_eq up lo words i
  rw [h, List.range_eq_range', setLoop_all]

theorem Join_eq_intercalate (elems : List (List Char)) (sep : List Char) :
    Join elems sep = sep.intercalate elems := by
  cases elems with
  | nil => rfl
  | cons e rest =>
    simp only [Join]
    induction rest generalizing e with
    | nil => simp [List.intercalate]
    | cons r rest ih =>
      rw [List.foldl_cons, ih]
      cases rest <;> simp [List.intercalate, List.intersperse, List.append_assoc]


theorem modifyHead_self (l : List (List Char)) : l.modifyHead (fun x => x) = l := by
  cases l <;> simp

theorem fieldsStep_foldl (f : Char → Bool) :
    ∀ (s : List Char) (spans : List (List Char)) (cur : Option (List Char)),
      cur ≠ some [] →
      (match (s.foldl (fieldsStep f) (spans, cur)).2 with
        | some w => (s.foldl (fieldsStep f) (spans, cur)).1 ++ [w]
        | none => (s.foldl (fieldsStep f) (spans, cur)).1)
        = spans ++ ((s.splitOnP f).modifyHead (fun x => cur.getD [] ++ x)).filter
            fun w => !w.isEmpty := by
  intro s
  induction s with
  | nil =>
    intro spans cur hcur
    cases cur with
    | none => simp
    | some w =>
      cases w with
      | nil => exact absurd rfl hcur
      | cons c cs => simp
  | cons a tl ih =>
    intro spans cur hcur
    rw [List.foldl_cons, List.splitOnP_cons]
    by_cases hf : f a = true
    · cases cur with
      | none =>
        simp only [fieldsStep, hf, if_true]
        rw [ih spans none (by simp)]
        simp [modifyHead_self]
      | some w =>
        cases w with
        | nil => exact absurd rfl hcur
        | cons c cs =>
          simp only [fieldsStep, hf, if_true]
          rw [ih (spans ++ [c :: cs]) none (by simp)]
          simp [modifyHead_self]
    · cases cur with
      | none =>
        simp only [fieldsStep, hf, if_false, Bool.false_eq_true]
        rw [ih spans (some [a]) (by simp)]
        cases h : List.splitOnP f tl <;> simp
      | some w =>
        simp only [fieldsStep, hf, if_false, Bool.false_eq_true]
        rw [ih spans (some (w ++ [a])) (by simp)]
        cases h : List.splitOnP f tl <;> simp

theorem Fields_eq_wordsOf (ws : Char → Bool) (s : List Char) : Fields ws s = wordsOf ws s := by
  unfold Fields FieldsFunc wordsOf
  have h := fieldsStep_foldl (IsSpace ws) s [] none (by simp)
  simp only [List.nil_append, Option.getD_none, modifyHead_self] at h
  exact h

theorem CapitalizeName_eq (ws : Char → Bool) (up lo : Char → Char) (name : String) :
    CapitalizeName ws up lo name
      = String.mk (" ".data.intercalate ((wordsOf ws name.data).map (capitalizeWord up lo))) := by
  unfold CapitalizeName
  simp only [capitalize_loop, Join_eq_intercalate, Fields_eq_wordsOf]

theorem splitOnP_all (p : Char → Bool) (l : List Char) (h : ∀ c ∈ l, p c = true) :
    ∀ w ∈ l.splitOnP p, w = [] := by
  induction l with
  | nil => simp
  | cons a tl ih =>
    rw [List.splitOnP_cons, if_pos (h a (List.mem_cons_self a tl))]
    intro w hw
    rcases List.mem_cons.mp hw with rfl | hw
    · rfl
    · exact ih (fun c hc => h c (List.mem_cons_of_mem a hc)) w hw

theorem wordsOf_spaces (ws : Char → Bool) (s : List Char)
    (h : ∀ c ∈ s, IsSpace ws c = true) : wordsOf ws s = [] := by
  unfold wordsOf
  rw [List.filter_eq_nil_iff]
  intro w hw
  simp [splitOnP_all (IsSpace ws) s h w hw]

theorem splitOnP_congr (p q : Char → Bool) (l : List Char) (h : ∀ c ∈ l, p c = q c) :
    l.splitOnP p = l.splitOnP q := by
  induction l with
  | nil => simp
  | cons a tl ih =>
    rw [List.splitOnP_cons, List.splitOnP_cons, h a (List.mem_cons_self a tl),
      ih (fun c hc => h c (List.mem_cons_of_mem a hc))]

theorem mem_of_mem_splitOnP (p : Char → Bool) (l : List Char) :
    ∀ w ∈ l.splitOnP p, ∀ c ∈ w, c ∈ l := by
  induction l with
  | nil => simp
  | cons a tl ih =>
    intro w hw c hc
    rw [List.splitOnP_cons] at hw
    split at hw
    · rcases List.mem_cons.mp hw with rfl | hw
      · simp at hc
      · exact List.mem_cons_of_mem a (ih w hw c hc)
    · cases hs : List.splitOnP p tl with
      | nil => simp [hs] at hw
      | cons x xs =>
        rw [hs, List.modifyHead_cons] at hw
        rcases List.mem_cons.mp hw with rfl | hw
        · rcases List.mem_cons.mp hc with rfl | hc
          · exact List.mem_cons_self _ _
          · exact List.mem_cons_of_mem a (ih x (by simp [hs]) c hc)
        · exact List.mem_cons_of_mem a (ih w (by simp [hs, hw]) c hc)

theorem ascii_le_latin1 (c : Char) (h : c.val ≤ 0x7F) : c.val ≤ 0xFF := by
  have h2 : (0x7F : UInt32) ≤ 0xFF := by decide
  exact Nat.le_trans h h2

theorem IsSpace_latin1 (ws ws2 : Char → Bool) (r : Char) (h : r.val ≤ 0xFF) :
    IsSpace ws r = IsSpace ws2 r := by
  simp [IsSpace, h]

theorem ToUpper_ascii (up up2 : Char → Char) (r : Char) (h : r.val ≤ 0x7F) :
    ToUpper up r = ToUpper up2 r := by
  simp [ToUpper, h]

theorem ToLower_ascii (lo lo2 : Char → Char) (r : Char) (h : r.val ≤ 0x7F) :
    ToLower lo r = ToLower lo2 r := by
  simp [ToLower, h]

theorem capitalizeWord_ascii (up lo up2 lo2 : Char → Char) (w : List Char)
    (h : ∀ c ∈ w, c.val ≤ 0x7F) : capitalizeWord up lo w = capitalizeWord up2 lo2 w := by
  cases w with
  | nil => rfl
  | cons c cs =>
    simp only [capitalizeWord]
    rw [ToUpper_ascii up up2 c (h c (List.mem_cons_self c cs))]
    congr 1
    apply List.map_congr_left
    intro x hx
    exact ToLower_ascii lo lo2 x (h x (List.mem_cons_of_mem c hx))

theorem CapitalizeName_ascii (ws ws2 : Char → Bool) (up lo up2 lo2 : Char → Char)
    (name : String) (h : ∀ c ∈ name.data, c.val ≤ 0x7F) :
    CapitalizeName ws up lo name = CapitalizeName ws2 up2 lo2 name := by
  have hw : wordsOf ws name.data = wordsOf ws2 name.data := by
    unfold wordsOf
    rw [splitOnP_congr (IsSpace ws) (IsSpace ws2) name.data
      (fun c hc => IsSpace_latin1 ws ws2 c (ascii_le_latin1 c (h c hc)))]
  rw [CapitalizeName_eq, CapitalizeName_eq, hw]
  congr 2
  apply List.map_congr_left
  intro w hw2
  apply capitalizeWord_ascii
  intro c hc
  exact h c (mem_of_mem_splitOnP (IsSpace ws2) name.data w (List.mem_of_mem_filter hw2) c hc)


/-- C11. `CapitalizeName`: the result is the whitespace-separated words of
the input, in order, each with its first character converted to upper case
and every later character to lower case, joined by one space; an input that
is empty or holds whitespace only gives the empty string; and `d'ARTAGNAN`
becomes `D'artagnan`, the letter after the apostrophe lower-cased. -/
theorem CapitalizeName_spec (ws : Char → Bool) (up lo : Char → Char) (name : String) :
    CapitalizeName ws up lo name
        = String.mk (" ".data.intercalate ((wordsOf ws name.data).map (capitalizeWord up lo))) ∧
      ((∀ c ∈ name.data, IsSpace ws c = true) → CapitalizeName ws up lo name = "") ∧
      CapitalizeName ws up lo "d'ARTAGNAN" = "D'artagnan" := by
  refine ⟨CapitalizeName_eq ws up lo name, ?_, ?_⟩
  · intro h
    rw [CapitalizeName_eq, wordsOf_spaces ws name.data h]
    rfl
  · rw [CapitalizeName_ascii ws (fun _ => false) up lo id id "d'ARTAGNAN" (by decide)]
    decide

theorem CapitalizeName_spec_witness :
    (∀ c ∈ " \t ".data, IsSpace (fun _ => false) c = true) ∧
      CapitalizeName (fun _ => false) id id " \t " = "" :=
  ⟨by decide, (CapitalizeName_spec (fun _ => false) id id " \t ").2.1 (by decide)⟩

/-- The ASCII rows of the table of `TestCapitalizeName` (`strings_test.go`) on
the model, for any tables above ASCII. -/
theorem CapitalizeName_test_table (ws : Char → Bool) (up lo : Char → Char) :
    CapitalizeName ws up lo "jOHN doe" = "John Doe" ∧
      CapitalizeName ws up lo "ALICE" = "Alice" ∧
      CapitalizeName ws up lo "bob smith" = "Bob Smith" ∧
      CapitalizeName ws up lo "" = "" ∧
      CapitalizeName ws up lo "  john   doe  " = "John Doe" ∧
      CapitalizeName ws up lo "mArY aNnE o'connor" = "Mary Anne O'connor" ∧
      CapitalizeName ws up lo "123 abc" = "123 Abc" ∧
      CapitalizeName ws up lo "a" = "A" ∧
      CapitalizeName ws up lo "A" = "A" ∧
      CapitalizeName ws up lo "  " = "" := by
  refine ⟨?_, ?_, ?_, ?_, ?_, ?_, ?_, ?_, ?_, ?_⟩ <;>
    (rw [CapitalizeName_ascii ws (fun _ => false) up lo id id _ (by decide)]; decide)


/-! ## Distribution of the symbols -/

theorem charset_nodup : charset.Nodup := by decide

set_option maxRecDepth 100000 in
theorem count_mod64 (i : Nat) (h : i < 64) :
    (List.finRange 256).countP (fun b : Byte => decide (b.val % 64 = i)) = 4 := by
  interval_cases i <;> decide

theorem charset_getD_inj (i j : Nat) (hi : i < 64) (hj : j < 64)
    (h : charset.getD i '\x00' = charset.getD j '\x00') : i = j := by
  have hi2 : i < charset.length := by rw [charset_length]; exact hi
  have hj2 : j < charset.length := by rw [charset_length]; exact hj
  have h2 : charset[i] = charset[j] := by
    simpa [List.getD_eq_getElem?_getD, List.getElem?_eq_getElem hi2,
      List.getElem?_eq_getElem hj2] using h
  exact (List.Nodup.getElem_inj_iff charset_nodup).mp h2

theorem GenerateRandomString_one (b : Byte) :
    GenerateRandomString 1 [some b] = String.mk [charset.getD (b.val % 64) '\x00'] :=
  GenerateRandomString_eq 1 [b] [] (by decide) rfl

/-- C12. `GenerateRandomString` maps the byte values evenly to its alphabet:
the alphabet has 64 pairwise distinct characters, and for every alphabet
symbol exactly 4 of the 256 byte values make the generator produce it, so the
reduction modulo 64 adds no bias. -/
theorem GenerateRandomString_uniform :
    charset.length = 64 ∧ charset.Nodup ∧
      ∀ c ∈ charset,
        (List.finRange 256).countP
          (fun b : Byte => decide (GenerateRandomString 1 [some b] = String.mk [c])) = 4 := by
  refine ⟨charset_length, charset_nodup, ?_⟩
  intro c hc
  obtain ⟨i, hi, rfl⟩ := List.getElem_of_mem hc
  have hi64 : i < 64 := by rw [← charset_length]; exact hi
  rw [← count_mod64 i hi64]
  apply List.countP_congr
  intro b _
  have hb : b.val % 64 < 64 := Nat.mod_lt _ (by omega)
  have hget : charset[i] = charset.getD i '\x00' := by
    simp [List.getD_eq_getElem?_getD, List.getElem?_eq_getElem hi]
  simp only [GenerateRandomString_one, decide_eq_true_eq, hget]
  constructor
  · intro h
    have h2 := congrArg String.data h
    simp only [List.cons.injEq, and_true] at h2
    exact charset_getD_inj _ _ hb hi64 h2
  · intro h
    rw [h]


/-! ## Failure of the random source in `GenerateTransactionID` -/

theorem not_delivers_of_short (n : Nat) (src : RandSource) (h : src.length < n) :
    ¬ Delivers n src := by
  rintro ⟨bs, rest, hlen, hsrc⟩
  have hl := congrArg List.length hsrc
  simp only [List.length_append, List.length_map] at hl
  omega

theorem not_delivers_of_none (n i : Nat) (src : RandSource) (hi : i < n)
    (h : src[i]? = some none) : ¬ Delivers n src := by
  rintro ⟨bs, rest, hlen, hsrc⟩
  rw [hsrc, List.getElem?_append_left (by simpa [hlen] using hi)] at h
  simp at h

/-- C13, contradicted by the code. When the second of the eight calls of
`rand.Read` fails, `GenerateTransactionID` returns the empty string to its
caller (the branch `if err != nil { return "" }`): it does not panic, which is
what its doc comment announces.  The same holds when the first call fails and
at any clock reading. -/
theorem GenerateTransactionID_read_failure :
    ¬ Delivers 8 [some 1, none, some 3, some 4, some 5, some 6, some 7, some 8] ∧
      GenerateTransactionID (LocalTime.mk 2024 6 7 12 34 56)
          [some 1, none, some 3, some 4, some 5, some 6, some 7, some 8] = "" ∧
      GenerateTransactionID (LocalTime.mk 2024 6 7 12 34 56) [none] = "" ∧
      GenerateTransactionID (LocalTime.mk 2024 6 7 12 34 56)
          [some 1, some 2, some 3, some 4, some 5, some 6, some 7, some 8]
        = "24060712345612345678" :=
  ⟨not_delivers_of_none 8 1 _ (by decide) rfl, by decide, by decide, by decide⟩

/-! ## The HTTP wrapper -/

theorem header_foldl (kvs : List (String × String)) :
    ∀ r : Request,
      kvs.foldl (fun (r : Request) kv => { r with header := r.header ++ [(kv.1, kv.2)] }) r
        = { r with header := r.header ++ kvs } := by
  induction kvs with
  | nil => intro r; simp
  | cons kv tl ih =>
    intro r
    rw [List.foldl_cons, ih]
    simp

theorem copyBytes_make (body : List Nat) : copyBytes (makeBytes body.length) body = body := by
  simp [copyBytes, makeBytes]

theorem HTTPRequest_eq {Err : Type} (T : Transport Err) (method url : String)
    (headers : Option Headers) (body : Option (List Nat)) (timeout : List Int) :
    HTTPRequest T method url headers body timeout
      = respond (T.DoTimeout (requestOf method url headers body)
          (wrapInt64 (wrapInt64
            (if timeout.length > 0 then timeout.getD 0 0 else wrapInt64 (10 * 1000))
              * Millisecond))) := by
  unfold HTTPRequest
  simp only [header_foldl, List.nil_append]
  cases body <;> simp only [respond, requestOf] <;> split <;> simp_all [copyBytes_make]

theorem wrapInt64_of_range (x : Int) (h1 : -9223372036854775808 ≤ x)
    (h2 : x ≤ 9223372036854775807) : wrapInt64 x = x := by
  unfold wrapInt64
  omega

/-- When the transport answers with a response, `HTTPRequest` returns its
body and status with a nil error, whatever the body is. -/
theorem HTTPRequest_ok {Err : Type} (T : Transport Err) (method url : String)
    (headers : Option Headers) (body : Option (List Nat)) (timeout : List Int) (resp : Response)
    (h : T.DoTimeout (requestOf method url headers body)
        (wrapInt64 (wrapInt64
          (if timeout.length > 0 then timeout.getD 0 0 else wrapInt64 (10 * 1000))
            * Millisecond)) = .ok resp) :
    HTTPRequest T method url headers body timeout = (some resp.body, resp.statusCode, none) := by
  rw [HTTPRequest_eq, h]
  rfl

/-- C14, the code at the failing input: the transport answers with status 200
and the body `<html>`, which is not JSON, and `HTTPRequest` returns that body
with a nil error. -/
theorem HTTPRequest_returns_non_json :
    startsJSONValue [60, 104, 116, 109, 108, 62] = false ∧
      HTTPRequest (fixedTransport ⟨[60, 104, 116, 109, 108, 62], 200⟩) "GET"
          "http://example.com" none none []
        = (some [60, 104, 116, 109, 108, 62], 200, none) := by
  decide

/-- C16, as the claim states it, fails on a 64-bit platform: for the first
timeout argument 9223372036855 the product with `time.Millisecond` leaves the
`int64` range, and the transport is called with a negative duration, not
with 9223372036855 milliseconds. -/
theorem HTTPRequest_timeout_counterexample :
    HTTPRequest recordingTransport "GET" "http://example.com" none none [9223372036855]
        = (none, 0, some (requestOf "GET" "http://example.com" none none,
            -9223372036854551616)) ∧
      (-9223372036854551616 : Int) ≠ 9223372036855 * Millisecond := by
  decide

/-- C16, amended. The transport is called with 10,000 milliseconds when the
caller passes no timeout argument, and otherwise with the first timeout
argument `t` in milliseconds (later arguments are ignored), provided the
nanosecond count `t * 1000000` is in the `int64` range, that is
`-9223372036854 ≤ t ≤ 9223372036854`. -/
theorem HTTPRequest_timeout {Err : Type} (T : Transport Err) (method url : String)
    (headers : Option Headers) (body : Option (List Nat)) :
    HTTPRequest T method url headers body []
        = respond (T.DoTimeout (requestOf method url headers body) (10000 * Millisecond)) ∧
      ∀ (t : Int) (later : List Int), -9223372036854 ≤ t → t ≤ 9223372036854 →
        HTTPRequest T method url headers body (t :: later)
          = respond (T.DoTimeout (requestOf method url headers body) (t * Millisecond)) := by
  constructor
  · rw [HTTPRequest_eq]
    rfl
  · intro t later h1 h2
    rw [HTTPRequest_eq]
    simp only [List.length_cons, Nat.zero_lt_succ, if_true, List.getD_cons_zero, gt_iff_lt]
    rw [wrapInt64_of_range t (by omega) (by omega),
      wrapInt64_of_range (t * Millisecond) (by unfold Millisecond; omega)
        (by unfold Millisecond; omega)]

theorem HTTPRequest_timeout_witness :
    HTTPRequest recordingTransport "GET" "http://example.com" none none [50, 7]
      = respond (recordingTransport.DoTimeout (requestOf "GET" "http://example.com" none none)
          (50 * Millisecond)) :=
  (HTTPRequest_timeout recordingTransport "GET" "http://example.com" none none).2 50 [7]
    (by decide) (by decide)

theorem HTTPGetJSON_eq {Err : Type} (T : Transport Err) (url : String)
    (headers : Option Headers) :
    HTTPGetJSON T url headers
      = respond (T.DoTimeout
          (requestOf "GET" url
            (some ((headers.getD ∅).insert "Accept" "application/json")) none)
          (10000 * Millisecond)) := by
  unfold HTTPGetJSON
  have hh : (match headers with
      | none => (∅ : Headers)
      | some m => m) = headers.getD ∅ := by
    cases headers <;> rfl
  rw [hh]
  simp only [HTTPRequest_eq]
  have hd : wrapInt64 (wrapInt64
      (if ([] : List Int).length > 0 then ([] : List Int).getD 0 0 else wrapInt64 (10 * 1000))
        * Millisecond) = 10000 * Millisecond := by decide
  rw [hd]
  cases T.DoTimeout _ (10000 * Millisecond) with
  | error err => rfl
  | ok resp => rfl

/-- C17, contradicted by the code at the header map with the one entry
`accept: text/html`. `HTTPGetJSON` adds the key `Accept` to the map, which
then has the two keys `Accept` and `accept`, and `HTTPRequest` calls
`req.Header.Set` once for each.  fasthttp normalises both names to `Accept`,
so the second call replaces the value of the first: when the map is visited
in the order `Accept`, `accept`, the request that is issued is a GET without
body whose only header is `Accept: text/html`, and not `Accept:
application/json`.  In the other order the header is `Accept:
application/json`. -/
theorem HTTPGetJSON_accept_lost :
    HTTPGetJSON recordingTransport "http://example.com"
        (some ((∅ : Headers).insert "accept" "text/html"))
      = (none, 0, some (⟨"http://example.com", "GET",
          [("Accept", "application/json"), ("accept", "text/html")], none⟩, 10000000000)) ∧
      setAll [] [("Accept", "application/json"), ("accept", "text/html")]
        = some [("Accept", "text/html")] ∧
      setAll [] [("accept", "text/html"), ("Accept", "application/json")]
        = some [("Accept", "application/json")] := by
  decide

/-- The headers of `TestHTTPGetJSON_CustomHeaders` (`http_test.go`), and a
caller who gives an `Accept` of its own. -/
theorem HTTPGetJSON_test_headers :
    HTTPGetJSON recordingTransport "http://127.0.0.1"
        (some ((∅ : Headers).insert "X-Test" "abc"))
      = (none, 0, some (⟨"http://127.0.0.1", "GET",
          [("Accept", "application/json"), ("X-Test", "abc")], none⟩, 10000000000)) ∧
      HTTPGetJSON recordingTransport "http://127.0.0.1"
        (some (((∅ : Headers).insert "X-Test" "abc").insert "Accept" "text/html"))
      = (none, 0, some (⟨"http://127.0.0.1", "GET",
          [("Accept", "application/json"), ("X-Test", "abc")], none⟩, 10000000000)) ∧
      HTTPGetJSON recordingTransport "http://127.0.0.1" none
      = (none, 0, some (⟨"http://127.0.0.1", "GET",
          [("Accept", "application/json")], none⟩, 10000000000)) := by
  decide


/-! ## Time strings -/

theorem decDigit_dec (a : Nat) (h : a < 10) :
    (decide ('0' ≤ decDigit a) && decide (decDigit a ≤ '9')) = true := by
  interval_cases a <;> decide

theorem digitValue_decDigit (a : Nat) (h : a < 10) : digitValue (decDigit a) = a := by
  interval_cases a <;> rfl

theorem decDigit_ne_blank (a : Nat) (h : a < 10) : (decDigit a == ' ') = false := by
  interval_cases a <;> decide

theorem decDigit_ne_minus (a : Nat) (h : a < 10) : decDigit a ≠ '-' := by
  interval_cases a <;> decide

theorem decDigit_ne_plus (a : Nat) (h : a < 10) : decDigit a ≠ '+' := by
  interval_cases a <;> decide

theorem getnum_two (a b : Nat) (ha : a < 10) (hb : b < 10) (fixed : Bool) (rest : List Char) :
    getnum (decDigit a :: decDigit b :: rest) fixed = some (a * 10 + b, rest) := by
  simp [getnum, isDigitAt, decDigit_dec, digitValue_decDigit, ha, hb]

theorem skip_char (p : Char) (hp : p ≠ ' ') (rest : List Char) :
    skip 1 (p :: rest) [p] = some rest := by
  simp [skip, hp]

theorem skip_blank (a : Nat) (ha : a < 10) (rest : List Char) :
    skip 1 (' ' :: decDigit a :: rest) [' '] = some (decDigit a :: rest) := by
  simp [skip, cutspace, List.dropWhile, decDigit_ne_blank a ha]

theorem atoi_four (a b c d : Nat) (ha : a < 10) (hb : b < 10) (hc : c < 10) (hd : d < 10) :
    atoi [decDigit a, decDigit b, decDigit c, decDigit d]
      = some ((((a * 10 + b) * 10 + c) * 10 + d : Nat) : Int) := by
  simp [atoi, decDigit_ne_minus a ha, decDigit_ne_plus a ha, List.takeWhile, List.dropWhile,
    decDigit_dec, digitValue_decDigit, ha, hb, hc, hd]

theorem Parse_of_digits (y1 y2 y3 y4 m1 m2 d1 d2 h1 h2 n1 n2 s1 s2 : Nat)
    (hy1 : y1 < 10) (hy2 : y2 < 10) (hy3 : y3 < 10) (hy4 : y4 < 10)
    (hm1 : m1 < 10) (hm2 : m2 < 10) (hd1 : d1 < 10) (hd2 : d2 < 10)
    (hh1 : h1 < 10) (hh2 : h2 < 10) (hn1 : n1 < 10) (hn2 : n2 < 10)
    (hs1 : s1 < 10) (hs2 : s2 < 10) (Y : Int)
    (hY : ((((y1 * 10 + y2) * 10 + y3) * 10 + y4 : Nat) : Int) = Y)
    (hmonth : 1 ≤ m1 * 10 + m2 ∧ m1 * 10 + m2 ≤ 12)
    (hday : 1 ≤ d1 * 10 + d2 ∧ d1 * 10 + d2 ≤ daysIn (m1 * 10 + m2) Y)
    (hhour : h1 * 10 + h2 < 24) (hmin : n1 * 10 + n2 < 60) (hsec : s1 * 10 + s2 < 60) :
    Parse20060102150405
        [decDigit y1, decDigit y2, decDigit y3, decDigit y4, '-', decDigit m1, decDigit m2, '-',
          decDigit d1, decDigit d2, ' ', decDigit h1, decDigit h2, ':', decDigit n1, decDigit n2,
          ':', decDigit s1, decDigit s2]
      = .ok { year := Y,
              month := m1 * 10 + m2, day := d1 * 10 + d2, hour := h1 * 10 + h2,
              minute := n1 * 10 + n2, second := s1 * 10 + s2 } := by
  unfold Parse20060102150405
  have hfirst : isDigitAt
      [decDigit y1, decDigit y2, decDigit y3, decDigit y4, '-', decDigit m1, decDigit m2, '-',
        decDigit d1, decDigit d2, ' ', decDigit h1, decDigit h2, ':', decDigit n1, decDigit n2,
        ':', decDigit s1, decDigit s2] 0 = true := by
    simp [isDigitAt, decDigit_dec, hy1]
  have hat : atoi [decDigit y1, decDigit y2, decDigit y3, decDigit y4] = some Y := by
    rw [atoi_four y1 y2 y3 y4 hy1 hy2 hy3 hy4, hY]
  simp only [hfirst, List.length_cons, List.length_nil, List.take, List.drop, hat, skip_char '-' (by decide), skip_char ':' (by decide),
    getnum_two m1 m2 hm1 hm2, getnum_two d1 d2 hd1 hd2, skip_blank h1 hh1,
    getnum_two h1 h2 hh1 hh2, getnum_two n1 n2 hn1 hn2, getnum_two s1 s2 hs1 hs2]
  split_ifs <;> first
    | rfl
    | omega
    | (simp at *; done)
    | (simp at *; omega)

theorem fixedDigits_four (y : Nat) :
    fixedDigits 10 4 y
      = [digitChar (y / 10 / 10 / 10 % 10), digitChar (y / 10 / 10 % 10), digitChar (y / 10 % 10),
          digitChar (y % 10)] := by
  simp [fixedDigits]

theorem appendInt_two (n : Nat) (h : n < 100) : appendInt (n : Int) 2 = twoDigits n := by
  unfold appendInt
  rw [if_neg (by omega)]
  exact formatUint_two n h

theorem appendInt_year (y : Nat) (h : y < 10000) :
    appendInt (y : Int) 4
      = [decDigit (y / 1000), decDigit (y / 100 % 10), decDigit (y / 10 % 10),
          decDigit (y % 10)] := by
  unfold appendInt
  rw [if_neg (by omega)]
  have hn : ((y : Int)).natAbs = y := Int.natAbs_ofNat y
  rw [hn, formatUint_eq_fixedDigits 10 4 y (by omega) (by omega) (by omega), fixedDigits_four,
    digitChar_eq_decDigit _ (Nat.mod_lt _ (by omega)),
    digitChar_eq_decDigit _ (Nat.mod_lt _ (by omega)),
    digitChar_eq_decDigit _ (Nat.mod_lt _ (by omega)),
    digitChar_eq_decDigit _ (Nat.mod_lt _ (by omega))]
  have e1 : y / 10 / 10 / 10 % 10 = y / 1000 := by omega
  have e2 : y / 10 / 10 % 10 = y / 100 % 10 := by omega
  rw [e1, e2]

/-- C15, as the claim states it, fails: the time value of 1 January of the
year 10000 is formatted with a year of five digits, `10000-01-01 00:00:00`,
which `StringToTime` rejects. -/
theorem StringToTime_TimeToString_counterexample :
    (LocalTime.mk 10000 1 1 0 0 0).Valid ∧ (LocalTime.mk 10000 1 1 0 0 0).IsDate ∧
      TimeToString (LocalTime.mk 10000 1 1 0 0 0) = "10000-01-01 00:00:00" ∧
      StringToTime (TimeToString (LocalTime.mk 10000 1 1 0 0 0)) = .error ParseError.bad :=
  ⟨by decide, by decide, by decide, rfl⟩

/-- C15, amended. For every time value `t` whose year is from 0 to 9999 (the
zero time and times in a location other than UTC included),
`StringToTime(TimeToString(t))` succeeds without error; its result has the
civil fields of `t`. -/
theorem StringToTime_TimeToString (t : LocalTime) (hv : t.Valid) (hd : t.IsDate)
    (h0 : 0 ≤ t.year) (h9 : t.year ≤ 9999) :
    StringToTime (TimeToString t) = .ok t := by
  obtain ⟨year, month, day, hour, minute, second⟩ := t
  obtain ⟨hm1, hm2, hd1, hd2, hh, hmi, hs⟩ := hv
  simp only at hm1 hm2 hd1 hd2 hh hmi hs h0 h9
  unfold LocalTime.IsDate at hd
  simp only at hd
  obtain ⟨y, rfl⟩ : ∃ y : Nat, year = (y : Int) := ⟨year.toNat, by omega⟩
  have hy : y < 10000 := by omega
  unfold StringToTime TimeToString Format20060102150405
  simp only [appendInt_year y hy, appendInt_two month (by omega), appendInt_two day (by omega),
    appendInt_two hour (by omega), appendInt_two minute (by omega),
    appendInt_two second (by omega), twoDigits, List.cons_append, List.nil_append]
  rw [Parse_of_digits (y / 1000) (y / 100 % 10) (y / 10 % 10) (y % 10) (month / 10) (month % 10)
    (day / 10) (day % 10) (hour / 10) (hour % 10) (minute / 10) (minute % 10) (second / 10)
    (second % 10) (by omega) (by omega) (by omega) (by omega) (by omega) (by omega) (by omega)
    (by omega) (by omega) (by omega) (by omega) (by omega) (by omega) (by omega) (y : Int)
    (by omega) (by omega)
    (by rw [Nat.div_add_mod' month 10, Nat.div_add_mod' day 10]; exact ⟨hd1, hd⟩)
    (by omega) (by omega) (by omega)]
  simp only [Nat.div_add_mod']

theorem StringToTime_TimeToString_witness :
    (LocalTime.mk 1 1 1 0 0 0).Valid ∧ (LocalTime.mk 1 1 1 0 0 0).IsDate ∧
      (0 : Int) ≤ (LocalTime.mk 1 1 1 0 0 0).year ∧ (LocalTime.mk 1 1 1 0 0 0).year ≤ 9999 ∧
      StringToTime (TimeToString (LocalTime.mk 1 1 1 0 0 0)) = .ok (LocalTime.mk 1 1 1 0 0 0) :=
  ⟨by decide, by decide, by decide, by decide,
    StringToTime_TimeToString (LocalTime.mk 1 1 1 0 0 0) (by decide) (by decide) (by decide)
      (by decide)⟩

/-- The tables of `TestTimeToString` and `TestStringToTime` (`date_test.go`)
on the model. -/
theorem date_test_tables :
    TimeToString (LocalTime.mk 2023 10 1 12 34 56) = "2023-10-01 12:34:56" ∧
      TimeToString (LocalTime.mk 1 1 1 0 0 0) = "0001-01-01 00:00:00" ∧
      StringToTime "2023-10-01 12:34:56" = .ok (LocalTime.mk 2023 10 1 12 34 56) ∧
      StringToTime "2023/10/01 12:34:56" = .error ParseError.bad ∧
      StringToTime "" = .error ParseError.bad :=
  ⟨by decide, by decide, rfl, rfl, rfl⟩


/-! ## Random bits of a UUID -/

theorem lowerHex_inj (x y : Nat) (hx : x < 16) (hy : y < 16) (h : lowerHex x = lowerHex y) :
    x = y := by
  interval_cases x <;> interval_cases y <;> first | rfl | (exfalso; revert h; decide)

theorem hexByte_inj (a b : Byte) (h1 : lowerHex (a.val / 16) = lowerHex (b.val / 16))
    (h2 : lowerHex (a.val % 16) = lowerHex (b.val % 16)) : a = b := by
  have e1 := lowerHex_inj _ _ (by omega) (by omega) h1
  have e2 := lowerHex_inj _ _ (Nat.mod_lt _ (by omega)) (Nat.mod_lt _ (by omega)) h2
  apply Fin.ext
  omega

theorem version_low (b : Nat) (h : b < 256) : (b &&& 0x0F ||| 0x40) % 16 = b % 16 := by
  interval_cases b <;> rfl

theorem variant_high (b : Nat) (h : b < 256) : (b &&& 0x3F ||| 0x80) / 16 = 8 + b % 64 / 16 := by
  interval_cases b <;> rfl

theorem variant_low (b : Nat) (h : b < 256) : (b &&& 0x3F ||| 0x80) % 16 = b % 16 := by
  interval_cases b <;> rfl

theorem version_byte_inj (a b : Byte) :
    lowerHex ((a.val &&& 0x0F ||| 0x40) % 16) = lowerHex ((b.val &&& 0x0F ||| 0x40) % 16) ↔
      a.val % 16 = b.val % 16 := by
  rw [version_low _ a.isLt, version_low _ b.isLt]
  constructor
  · exact lowerHex_inj _ _ (Nat.mod_lt _ (by omega)) (Nat.mod_lt _ (by omega))
  · intro h; rw [h]

theorem variant_byte_inj (a b : Byte) :
    (lowerHex ((a.val &&& 0x3F ||| 0x80) / 16) = lowerHex ((b.val &&& 0x3F ||| 0x80) / 16) ∧
      lowerHex ((a.val &&& 0x3F ||| 0x80) % 16) = lowerHex ((b.val &&& 0x3F ||| 0x80) % 16)) ↔
      a.val % 64 = b.val % 64 := by
  rw [variant_high _ a.isLt, variant_high _ b.isLt, variant_low _ a.isLt, variant_low _ b.isLt]
  constructor
  · rintro ⟨h1, h2⟩
    have e1 := lowerHex_inj _ _ (by omega) (by omega) h1
    have e2 := lowerHex_inj _ _ (Nat.mod_lt _ (by omega)) (Nat.mod_lt _ (by omega)) h2
    omega
  · intro h
    have e1 : a.val % 64 / 16 = b.val % 64 / 16 := by rw [h]
    have e2 : a.val % 16 = b.val % 16 := by omega
    rw [e1, e2]
    exact ⟨rfl, rfl⟩

theorem hexByte_iff (a b : Byte) :
    (lowerHex (a.val / 16) = lowerHex (b.val / 16) ∧
      lowerHex (a.val % 16) = lowerHex (b.val % 16)) ↔ a = b := by
  constructor
  · rintro ⟨h1, h2⟩
    exact hexByte_inj a b h1 h2
  · rintro rfl
    exact ⟨rfl, rfl⟩

/-- C18. `GenerateUUIDv4` keeps all 122 random bits: for two deliveries of
sixteen bytes the results are equal exactly when the bytes other than byte 6
and byte 8 are equal, byte 6 agrees on its low 4 bits and byte 8 on its low 6
bits (every bit but the overwritten version and variant bits). -/
theorem GenerateUUIDv4_injective (bs bs2 : List Byte) (rest rest2 : RandSource)
    (h1 : bs.length = 16) (h2 : bs2.length = 16) :
    GenerateUUIDv4 (bs.map some ++ rest) = GenerateUUIDv4 (bs2.map some ++ rest2) ↔
      (∀ i, i < 16 → i ≠ 6 → i ≠ 8 → bs[i]? = bs2[i]?) ∧
        (bs.getD 6 0).val % 16 = (bs2.getD 6 0).val % 16 ∧
        (bs.getD 8 0).val % 64 = (bs2.getD 8 0).val % 64 := by
  obtain ⟨a0, a1, a2, a3, a4, a5, a6, a7, a8, a9, a10, a11, a12, a13, a14, a15, rfl⟩ :=
    length_eq_sixteen bs h1
  obtain ⟨b0, b1, b2, b3, b4, b5, b6, b7, b8, b9, b10, b11, b12, b13, b14, b15, rfl⟩ :=
    length_eq_sixteen bs2 h2
  have hA := GenerateUUIDv4_data a0 a1 a2 a3 a4 a5 a6 a7 a8 a9 a10 a11 a12 a13 a14 a15 rest
  have hB := GenerateUUIDv4_data b0 b1 b2 b3 b4 b5 b6 b7 b8 b9 b10 b11 b12 b13 b14 b15 rest2
  have hall : (∀ i, i < 16 → i ≠ 6 → i ≠ 8 →
      [a0, a1, a2, a3, a4, a5, a6, a7, a8, a9, a10, a11, a12, a13, a14, a15][i]?
        = [b0, b1, b2, b3, b4, b5, b6, b7, b8, b9, b10, b11, b12, b13, b14, b15][i]?) ↔
      a0 = b0 ∧ a1 = b1 ∧ a2 = b2 ∧ a3 = b3 ∧ a4 = b4 ∧ a5 = b5 ∧ a7 = b7 ∧ a9 = b9 ∧
        a10 = b10 ∧ a11 = b11 ∧ a12 = b12 ∧ a13 = b13 ∧ a14 = b14 ∧ a15 = b15 := by
    constructor
    · intro h
      have e0 := h 0 (by omega) (by omega) (by omega)
      have e1 := h 1 (by omega) (by omega) (by omega)
      have e2 := h 2 (by omega) (by omega) (by omega)
      have e3 := h 3 (by omega) (by omega) (by omega)
      have e4 := h 4 (by omega) (by omega) (by omega)
      have e5 := h 5 (by omega) (by omega) (by omega)
      have e7 := h 7 (by omega) (by omega) (by omega)
      have e9 := h 9 (by omega) (by omega) (by omega)
      have e10 := h 10 (by omega) (by omega) (by omega)
      have e11 := h 11 (by omega) (by omega) (by omega)
      have e12 := h 12 (by omega) (by omega) (by omega)
      have e13 := h 13 (by omega) (by omega) (by omega)
      have e14 := h 14 (by omega) (by omega) (by omega)
      have e15 := h 15 (by omega) (by omega) (by omega)
      simp only [List.getElem?_cons_zero, List.getElem?_cons_succ, Option.some.injEq] at e0 e1 e2 e3 e4 e5 e7 e9 e10 e11 e12 e13 e14 e15
      exact ⟨e0, e1, e2, e3, e4, e5, e7, e9, e10, e11, e12, e13, e14, e15⟩
    · rintro ⟨rfl, rfl, rfl, rfl, rfl, rfl, rfl, rfl, rfl, rfl, rfl, rfl, rfl, rfl⟩ i hi h6 h8
      interval_cases i <;> first | (exfalso; omega) | rfl
  rw [hall, String.ext_iff, hA, hB]
  simp only [List.cons.injEq, and_true, true_and, List.getD_cons_succ, List.getD_cons_zero,
    version_nibble _ a6.isLt, version_nibble _ b6.isLt]
  constructor
  · rintro ⟨c0, d0, c1, d1, c2, d2, c3, d3, c4, d4, c5, d5, d6, c7, d7, c8, d8, c9, d9, c10, d10,
      c11, d11, c12, d12, c13, d13, c14, d14, c15, d15⟩
    exact ⟨⟨hexByte_inj a0 b0 c0 d0, hexByte_inj a1 b1 c1 d1, hexByte_inj a2 b2 c2 d2,
      hexByte_inj a3 b3 c3 d3, hexByte_inj a4 b4 c4 d4, hexByte_inj a5 b5 c5 d5,
      hexByte_inj a7 b7 c7 d7, hexByte_inj a9 b9 c9 d9, hexByte_inj a10 b10 c10 d10,
      hexByte_inj a11 b11 c11 d11, hexByte_inj a12 b12 c12 d12, hexByte_inj a13 b13 c13 d13,
      hexByte_inj a14 b14 c14 d14, hexByte_inj a15 b15 c15 d15⟩,
      (version_byte_inj a6 b6).mp d6, (variant_byte_inj a8 b8).mp ⟨c8, d8⟩⟩
  · rintro ⟨⟨rfl, rfl, rfl, rfl, rfl, rfl, rfl, rfl, rfl, rfl, rfl, rfl, rfl, rfl⟩, h6, h8⟩
    have e6 := (version_byte_inj a6 b6).mpr h6
    obtain ⟨e8, f8⟩ := (variant_byte_inj a8 b8).mpr h8
    exact ⟨rfl, rfl, rfl, rfl, rfl, rfl, rfl, rfl, rfl, rfl, rfl, rfl, e6, rfl, rfl, e8, f8,
      rfl, rfl, rfl, rfl, rfl, rfl, rfl, rfl, rfl, rfl, rfl, rfl, rfl, rfl⟩

theorem GenerateUUIDv4_injective_witness :
    ([0, 17, 34, 51, 68, 85, 102, 119, 136, 153, 170, 187, 204, 221, 238, 255] : List Byte).length
        = 16 ∧
      ([0, 17, 34, 51, 68, 85, 246, 119, 72, 153, 170, 187, 204, 221, 238, 255] : List Byte).length
        = 16 ∧
      GenerateUUIDv4
          (([0, 17, 34, 51, 68, 85, 102, 119, 136, 153, 170, 187, 204, 221, 238, 255] :
            List Byte).map some ++ [])
        = GenerateUUIDv4
          (([0, 17, 34, 51, 68, 85, 246, 119, 72, 153, 170, 187, 204, 221, 238, 255] :
            List Byte).map some ++ [none]) :=
  ⟨by decide, by decide,
    (GenerateUUIDv4_injective
      [0, 17, 34, 51, 68, 85, 102, 119, 136, 153, 170, 187, 204, 221, 238, 255]
      [0, 17, 34, 51, 68, 85, 246, 119, 72, 153, 170, 187, 204, 221, 238, 255] [] [none]
      (by decide) (by decide)).mpr
      ⟨fun i hi h6 h8 => by interval_cases i <;> first | (exfalso; omega) | rfl,
        by decide, by decide⟩⟩

/-! ## Distribution of the digits -/

set_option maxRecDepth 100000 in
theorem count_mod10 (d : Nat) (h : d < 10) :
    (List.finRange 256).countP (fun b : Byte => decide (b.val % 10 = d))
      = if d < 6 then 26 else 25 := by
  interval_cases d <;> decide

theorem decDigit_inj (x y : Nat) (hx : x < 10) (hy : y < 10) (h : decDigit x = decDigit y) :
    x = y := by
  interval_cases x <;> interval_cases y <;> first | rfl | (exfalso; revert h; decide)

theorem digit_at (pre post : List Byte) (b : Byte) (tl : List Char) :
    (tl ++ (pre ++ b :: post).map fun x => decDigit (x.val % 10))[tl.length + pre.length]?
      = some (decDigit (b.val % 10)) := by
  rw [List.getElem?_append_right (by omega), Nat.add_sub_cancel_left, List.map_append,
    List.getElem?_append_right (by simp)]
  simp

theorem count_digit (d : Nat) (hd : d < 10) (f : Byte → Option Char)
    (hf : ∀ b, f b = some (decDigit (b.val % 10))) :
    (List.finRange 256).countP (fun b : Byte => decide (f b = some (decDigit d)))
      = if d < 6 then 26 else 25 := by
  rw [← count_mod10 d hd]
  apply List.countP_congr
  intro b _
  simp only [hf, Option.some.injEq, decide_eq_true_eq]
  constructor
  · exact decDigit_inj _ _ (Nat.mod_lt _ (by omega)) hd
  · intro h; rw [h]

/-- C19. The digit derivation `byte mod 10` of `GenerateUnique6Digits` and
`GenerateTransactionID` is not uniform: at every digit position, whatever the
other bytes are, each of the digits 0 to 5 is produced by exactly 26 of the
256 values of the byte read for that position and each of the digits 6 to 9
by exactly 25. -/
theorem digit_counts (d : Nat) (hd : d < 10) (now : LocalTime) (hnow : now.Valid)
    (pre post : List Byte) (rest : RandSource) :
    (pre.length + 1 + post.length = 6 →
        (List.finRange 256).countP (fun b : Byte => decide
          ((GenerateUnique6Digits ((pre ++ b :: post).map some ++ rest)).data[pre.length]?
            = some (decDigit d))) = if d < 6 then 26 else 25) ∧
      (pre.length + 1 + post.length = 8 →
        (List.finRange 256).countP (fun b : Byte => decide
          ((GenerateTransactionID now ((pre ++ b :: post).map some ++ rest)).data[12 + pre.length]?
            = some (decDigit d))) = if d < 6 then 26 else 25) := by
  constructor
  · intro hlen
    apply count_digit d hd
    intro b
    rw [GenerateUnique6Digits_eq _ rest (by simp; omega)]
    simpa using digit_at pre post b []
  · intro hlen
    apply count_digit d hd
    intro b
    rw [GenerateTransactionID_eq now _ rest hnow (by simp; omega)]
    have h12 : (timestamp12 now).length = 12 := rfl
    rw [← h12]
    exact digit_at pre post b (timestamp12 now)

theorem digit_counts_witness :
    (7 : Nat) < 10 ∧ (LocalTime.mk 2024 6 7 12 34 56).Valid ∧
      (List.finRange 256).countP (fun b : Byte => decide
        ((GenerateUnique6Digits (([1, 2] ++ b :: [3, 4, 5]).map some ++ [])).data[2]?
          = some (decDigit 7))) = 25 :=
  ⟨by decide, by decide,
    (digit_counts 7 (by decide) (LocalTime.mk 2024 6 7 12 34 56) (by decide) [1, 2] [3, 4, 5]
      []).1 (by decide)⟩

/-! ## Idempotence of the phone normalisation -/

theorem NormalizePhoneNumber_eq (nd : Char → Bool) (phone : String) :
    NormalizePhoneNumber nd phone
      = String.mk (normalizeDigits (phone.data.filter (IsDigit nd))) := by
  unfold NormalizePhoneNumber
  simp only [foldl_builder, List.nil_append]
  exact prefix_rule _

theorem IsDigit_six (nd : Char → Bool) : IsDigit nd '6' = true := by
  simp [IsDigit]

theorem IsDigit_two (nd : Char → Bool) : IsDigit nd '2' = true := by
  simp [IsDigit]

theorem normalizeDigits_mem (d : List Char) :
    ∀ c ∈ normalizeDigits d, c = '6' ∨ c = '2' ∨ c ∈ d := by
  intro c hc
  unfold normalizeDigits at hc
  split_ifs at hc
  · exact Or.inr (Or.inr hc)
  · simp only [List.cons_append, List.nil_append, List.mem_cons] at hc
    rcases hc with h | h | h
    · exact Or.inl h
    · exact Or.inr (Or.inl h)
    · exact Or.inr (Or.inr (List.mem_of_mem_tail h))
  · simp only [List.cons_append, List.nil_append, List.mem_cons] at hc
    rcases hc with h | h | h
    · exact Or.inl h
    · exact Or.inr (Or.inl h)
    · exact Or.inr (Or.inr h)
  · exact Or.inr (Or.inr hc)

theorem normalizeDigits_idem (d : List Char) :
    normalizeDigits (normalizeDigits d) = normalizeDigits d := by
  match d with
  | [] => rfl
  | [a] =>
    simp only [normalizeDigits, List.take, List.head?, List.tail, List.cons.injEq, and_false,
      if_false, Option.some.injEq, List.cons_append, List.nil_append]
    split_ifs <;> simp_all
  | a :: b :: tl =>
    simp only [normalizeDigits, List.take, List.head?, List.tail, List.cons.injEq, and_true,
      Option.some.injEq, List.cons_append, List.nil_append]
    split_ifs <;> simp_all

/-- C20. `NormalizePhoneNumber` is idempotent: normalising a normalised
number gives it back. -/
theorem NormalizePhoneNumber_idempotent (nd : Char → Bool) (phone : String) :
    NormalizePhoneNumber nd (NormalizePhoneNumber nd phone) = NormalizePhoneNumber nd phone := by
  rw [NormalizePhoneNumber_eq nd phone, NormalizePhoneNumber_eq nd]
  have hfilter : (normalizeDigits (phone.data.filter (IsDigit nd))).filter (IsDigit nd)
      = normalizeDigits (phone.data.filter (IsDigit nd)) := by
    rw [List.filter_eq_self]
    intro c hc
    rcases normalizeDigits_mem _ c hc with rfl | rfl | h
    · exact IsDigit_six nd
    · exact IsDigit_two nd
    · exact (List.mem_filter.mp h).2
  simp only [hfilter, normalizeDigits_idem]


end GoCommon
